import Mathlib

/-!
# bnet core utilities (`src/bnet_p.h`)

A shallow embedding of the three building blocks declared in `bnet_p.h`:
`MessageQueue`, `RecvRingBuffer` and `FreeList`, followed by the properties the
specification states about them.

Conventions of the embedding:

* a pointer is a natural-number address, the null pointer is address `0`;
* a `uint32_t` is a natural number and every `uint32_t` operation of the source is
  followed by an explicit reduction modulo `2 ^ 32`;
* a member function that mutates its object takes the object and returns the new one.
-/

namespace bnet

/-! ## Pointers and machine words -/

/-- A pointer value: the address it holds. -/
abbrev Ptr := Nat

/-- The null pointer. -/
def NULL : Ptr := 0

/-- Number of values of a `uint32_t`. -/
def U32 : Nat := 4294967296

/-- Number of values of a `uint16_t`. -/
def U16 : Nat := 65536

/-! ## MessageQueue (`bnet_p.h`, lines 270-310) -/

/-- The class `MessageQueue`: its only member is `std::list<Message*> m_queue`. -/
structure MessageQueue where
  m_queue : List Ptr
  deriving DecidableEq, Repr

namespace MessageQueue

/-- The constructor `MessageQueue()`: the list member is default-constructed, empty. -/
def new : MessageQueue := ⟨[]⟩

/-- The member `push`: `m_queue.push_back(_msg)`. -/
def push (q : MessageQueue) (_msg : Ptr) : MessageQueue :=
  ⟨q.m_queue ++ [_msg]⟩

/-- The member `peek` (not declared `const`): the front element when the list is not
empty, `NULL` otherwise. Returns the pointer and the queue afterwards; no statement of
the body changes the list. -/
def peek (q : MessageQueue) : Ptr × MessageQueue :=
  match q.m_queue with
  | msg :: _ => (msg, q)
  | [] => (NULL, q)

/-- The member `pop`: when the list is not empty, take the front element, `pop_front`,
return it; otherwise return `NULL`. Returns the pointer and the queue afterwards. -/
def pop (q : MessageQueue) : Ptr × MessageQueue :=
  match q.m_queue with
  | msg :: rest => (msg, ⟨rest⟩)
  | [] => (NULL, q)

end MessageQueue

/-- One call on a `MessageQueue` by a client: a push of a message or a pop. -/
inductive QueueOp where
  | push (msg : Ptr)
  | pop
  deriving DecidableEq, Repr

/-- Executes a sequence of calls from queue `q`; returns the final queue and the values
the pops returned, in call order. -/
def runQueue (q : MessageQueue) : List QueueOp → MessageQueue × List Ptr
  | [] => (q, [])
  | QueueOp.push msg :: ops => runQueue (q.push msg) ops
  | QueueOp.pop :: ops =>
    let r := q.pop
    let rest := runQueue r.2 ops
    (rest.1, r.1 :: rest.2)

/-- The messages pushed by a sequence of calls, in call order. -/
def pushedBy : List QueueOp → List Ptr
  | [] => []
  | QueueOp.push msg :: ops => msg :: pushedBy ops
  | QueueOp.pop :: ops => pushedBy ops

/-- No pop of the sequence is applied to an empty queue, starting from queue `q`. -/
def neverPopsEmpty (q : MessageQueue) : List QueueOp → Bool
  | [] => true
  | QueueOp.push msg :: ops => neverPopsEmpty (q.push msg) ops
  | QueueOp.pop :: ops => !q.m_queue.isEmpty && neverPopsEmpty q.pop.2 ops

/-- A sample interleaving: push 11, push 12, pop, push 13, pop, pop. -/
def sampleOps : List QueueOp :=
  [QueueOp.push 11, QueueOp.push 12, QueueOp.pop, QueueOp.push 13, QueueOp.pop, QueueOp.pop]

/-! ## Machine arithmetic -/

/-- Addition of two `uint32_t` values. -/
def addU32 (a b : Nat) : Nat := (a + b) % U32

/-- Subtraction of two `uint32_t` values: `a - b` modulo `2 ^ 32`. -/
def subU32 (a b : Nat) : Nat := (a % U32 + U32 - b % U32) % U32

/-! ## RingBufferControl (declared in `<bx/ringbuffer.h>`) -/

/-- Modelled from the spec: the control record `RingBufferControl` comes from the header
`<bx/ringbuffer.h>`, which is not among the sources, so it is taken as a parameter.
`κ` is the type of the record's mutable state. The spec gives it a total capacity
(`m_size`, fixed for the life of the ring and a `uint32_t`), a current producer cursor
(`m_current`), `reserve(n)` returning the number of bytes granted, `commit(n)` publishing
bytes to the consumer, and matching consumer state (`consume`). Each operation returns
its result and the record afterwards. -/
structure RingBufferControl (κ : Type) where
  m_size : Nat
  m_size_lt : m_size < U32
  m_current : κ → Nat
  reserve : κ → Nat → Nat × κ
  commit : κ → Nat → Nat × κ
  consume : κ → Nat → Nat × κ

/-- One call made on a control record. -/
inductive ControlCall where
  | reserve (_size : Nat)
  | commit (_size : Nat)
  | consume (_size : Nat)
  deriving DecidableEq, Repr

/-- A control record that behaves as `ctl` and also keeps the list of the calls made on
it, oldest first. -/
def RingBufferControl.traced {κ : Type} (ctl : RingBufferControl κ) :
    RingBufferControl (κ × List ControlCall) where
  m_size := ctl.m_size
  m_size_lt := ctl.m_size_lt
  m_current := fun c => ctl.m_current c.1
  reserve := fun c n =>
    ((ctl.reserve c.1 n).1, ((ctl.reserve c.1 n).2, c.2 ++ [ControlCall.reserve n]))
  commit := fun c n =>
    ((ctl.commit c.1 n).1, ((ctl.commit c.1 n).2, c.2 ++ [ControlCall.commit n]))
  consume := fun c n =>
    ((ctl.consume c.1 n).1, ((ctl.consume c.1 n).2, c.2 ++ [ControlCall.consume n]))

/-! ## RecvRingBuffer (`bnet_p.h`, lines 195-268) -/

/-- The class `RecvRingBuffer`. `m_control` is a reference to the shared control record:
the field holds the record's current state. `m_write` and `m_reserved` are `uint32_t`,
`m_buffer` is the address of the backing byte array. -/
structure RecvRingBuffer (κ : Type) where
  m_control : κ
  m_write : Nat
  m_reserved : Nat
  m_buffer : Ptr
  deriving DecidableEq, Repr

namespace RecvRingBuffer

variable {κ σ : Type}

/-- The constructor (lines 198-204): the write cursor is seeded from the control record's
current producer position, nothing is reserved. -/
def new (ctl : RingBufferControl κ) (_control : κ) (_buffer : Ptr) : RecvRingBuffer κ :=
  { m_control := _control
    m_write := ctl.m_current _control
    m_reserved := 0
    m_buffer := _buffer }

/-- The member `recv(SOCKET _socket)` (lines 210-232).

`read s to len` stands for the call `::recv(_socket, to, len, 0)` on the source in state
`s`: it returns the `int` result and the source afterwards (whatever it stored at `to` is
part of the source's state, see `World`). The result is `none` when the capacity is zero:
line 213 then divides by zero. Otherwise the result is the returned `int`, the object
afterwards and the source afterwards. A positive `int` converts to `uint32_t` unchanged,
so `bytes.toNat` is the value added, subtracted and committed. -/
def recv (ctl : RingBufferControl κ) (read : σ → Ptr → Nat → Int × σ)
    (rb : RecvRingBuffer κ) (_socket : σ) : Option (Int × RecvRingBuffer κ × σ) :=
  -- m_reserved += m_control.reserve(-1);
  let granted := ctl.reserve rb.m_control (U32 - 1)
  let m_reserved := addU32 rb.m_reserved granted.1
  if ctl.m_size = 0 then none
  else
    -- uint32_t end = (m_write + m_reserved) % m_control.m_size;
    let end_ := addU32 rb.m_write m_reserved % ctl.m_size
    -- uint32_t wrap = end < m_write ? m_control.m_size - m_write : m_reserved;
    let wrap := if end_ < rb.m_write then subU32 ctl.m_size rb.m_write else m_reserved
    -- char* to = &m_buffer[m_write];
    let to_ := rb.m_buffer + rb.m_write
    let got := read _socket to_ wrap
    let bytes := got.1
    if 0 < bytes then
      some (bytes,
        { m_control := (ctl.commit granted.2 bytes.toNat).2
          m_write := addU32 rb.m_write bytes.toNat % ctl.m_size
          m_reserved := subU32 m_reserved bytes.toNat
          m_buffer := rb.m_buffer },
        got.2)
    else
      some (bytes,
        { m_control := granted.2
          m_write := rb.m_write
          m_reserved := m_reserved
          m_buffer := rb.m_buffer },
        got.2)

/-- The local reserved count after line 212 of `recv`: the count before the call plus
what `reserve(-1)` grants in this call. -/
def reservedNow (ctl : RingBufferControl κ) (rb : RecvRingBuffer κ) : Nat :=
  addU32 rb.m_reserved (ctl.reserve rb.m_control (U32 - 1)).1

/-- The value of the local variable `wrap` of `recv` (lines 212-214): the length the
source is asked for. -/
def wrap (ctl : RingBufferControl κ) (rb : RecvRingBuffer κ) : Nat :=
  if addU32 rb.m_write (rb.reservedNow ctl) % ctl.m_size < rb.m_write then
    subU32 ctl.m_size rb.m_write
  else rb.reservedNow ctl

end RecvRingBuffer

/-- A source that behaves as `read` and also keeps the list of the requests made to it:
the address and the length of each call, oldest first. -/
def spy {σ : Type} (read : σ → Ptr → Nat → Int × σ) :
    σ × List (Ptr × Nat) → Ptr → Nat → Int × (σ × List (Ptr × Nat)) :=
  fun s to_ len => ((read s.1 to_ len).1, ((read s.1 to_ len).2, s.2 ++ [(to_, len)]))

/-- A source whose read answers `r` whatever it is asked and stores nothing. -/
def answer (r : Int) : Unit → Ptr → Nat → Int × Unit :=
  fun s _ _ => (r, s)

/-! ## A reference control record -/

/-- Modelled from the spec: the state of a control record, as the spec lists it: the
current producer cursor `m_current` (bytes before it are published), the reservation
cursor `m_write` (bytes between `m_current` and `m_write` are reserved by the producer)
and the consumer cursor `m_read`. -/
structure ControlState where
  m_current : Nat
  m_write : Nat
  m_read : Nat
  deriving DecidableEq, Repr

/-- Distance from cursor `a` forward to cursor `b` in a ring of `size` bytes. -/
def ringDistance (size a b : Nat) : Nat :=
  if a ≤ b then b - a else size + b - a

/-- Modelled from the spec: `reserve(n)` grants the producer as many bytes as asked, at
most the space between the reservation cursor and the consumer cursor, short of one byte
so that the producer never catches up with the consumer; `-1`, the largest `uint32_t`,
asks for as much as possible. The reservation cursor advances by the grant. -/
def ControlState.reserve (size : Nat) (c : ControlState) (n : Nat) : Nat × ControlState :=
  let dist := ringDistance size c.m_write c.m_read
  let maxSize := if dist = 0 then size - 1 else dist - 1
  let granted := min n maxSize
  (granted, { c with m_write := (c.m_write + granted) % size })

/-- Modelled from the spec: `commit(n)` publishes `n` bytes to the consumer, at most what
is reserved: the current producer cursor advances. -/
def ControlState.commit (size : Nat) (c : ControlState) (n : Nat) : Nat × ControlState :=
  let done := min n (ringDistance size c.m_current c.m_write)
  (done, { c with m_current := (c.m_current + done) % size })

/-- Modelled from the spec: the matching consumer operation: `consume(n)` releases `n`
bytes, at most what is published: the consumer cursor advances. -/
def ControlState.consume (size : Nat) (c : ControlState) (n : Nat) : Nat × ControlState :=
  let done := min n (ringDistance size c.m_read c.m_current)
  (done, { c with m_read := (c.m_read + done) % size })

/-- Modelled from the spec: the reference control record of capacity `size`. -/
def refControl (size : Nat) (h : size < U32) : RingBufferControl ControlState where
  m_size := size
  m_size_lt := h
  m_current := ControlState.m_current
  reserve := ControlState.reserve size
  commit := ControlState.commit size
  consume := ControlState.consume size

/-- The reference control record of capacity 8. -/
def control8 : RingBufferControl ControlState := refControl 8 (by decide)

/-- A fresh receive buffer of capacity 8 at address 4096: all cursors at 0. -/
def fresh8 : RecvRingBuffer ControlState :=
  RecvRingBuffer.new control8 ⟨0, 0, 0⟩ 4096

/-- The same receive buffer over the traced control record, its call list empty. -/
def RecvRingBuffer.withTrace {κ : Type} (rb : RecvRingBuffer κ) :
    RecvRingBuffer (κ × List ControlCall) :=
  { m_control := (rb.m_control, [])
    m_write := rb.m_write
    m_reserved := rb.m_reserved
    m_buffer := rb.m_buffer }

/-- A receive buffer of capacity 8 with write cursor 6 and all 8 bytes reserved; its
control record has nothing more to grant. -/
def full8 : RecvRingBuffer ControlState :=
  { m_control := ⟨6, 6, 7⟩, m_write := 6, m_reserved := 8, m_buffer := 4096 }

/-! ## BlockAlloc (declared in `<bx/blockalloc.h>`) -/

/-- Modelled from the spec: the block allocator `BlockAlloc` comes from the header
`<bx/blockalloc.h>`, which is not among the sources. The spec describes it as a
fixed-capacity slab allocator with uniformly sized slots over a memory block: slot `i`
is at address `m_data + i * m_elementSize`. `m_free` lists the indices of the unused
slots, the one to hand out next first. -/
structure BlockAlloc where
  m_data : Ptr
  m_num : Nat
  m_elementSize : Nat
  m_free : List Nat
  deriving DecidableEq, Repr

namespace BlockAlloc

/-- Modelled from the spec: the constructor over the block at `_data` with `_num` slots
of `_elementSize` bytes: every slot is unused, lowest index first. -/
def new (_data : Ptr) (_num _elementSize : Nat) : BlockAlloc :=
  ⟨_data, _num, _elementSize, List.range _num⟩

/-- Modelled from the spec: `index_of(p)` returns the 16-bit slot index of a pointer. -/
def getIndex (a : BlockAlloc) (_obj : Ptr) : Nat :=
  ((_obj - a.m_data) / a.m_elementSize) % U16

/-- Modelled from the spec: `from_index(i)` returns the pointer for a slot index. -/
def getFromIndex (a : BlockAlloc) (_index : Nat) : Ptr :=
  a.m_data + _index * a.m_elementSize

/-- Modelled from the spec: `alloc()` returns a pointer to one unused slot, or fails,
returning `NULL`, if the pool is exhausted. -/
def alloc (a : BlockAlloc) : Ptr × BlockAlloc :=
  match a.m_free with
  | i :: rest => (a.getFromIndex i, { a with m_free := rest })
  | [] => (NULL, a)

/-- Modelled from the spec: `free(p)` returns a slot to the pool; scenarios S1 and S6 of
the spec have the next `alloc` hand out the slot freed last. -/
def free (a : BlockAlloc) (_obj : Ptr) : BlockAlloc :=
  { a with m_free := a.getIndex _obj :: a.m_free }

end BlockAlloc

/-! ## FreeList (`bnet_p.h`, lines 130-193) -/

/-- The class template `FreeList<Ty>`: the members `m_memBlock` and `m_allocator`, and
the contents of the memory block seen as objects: `objects p` is the live object of type
`Ty` at address `p`, if one has been constructed there and not destroyed since. -/
structure FreeList (Ty : Type) where
  m_memBlock : Ptr
  m_allocator : BlockAlloc
  objects : Ptr → Option Ty

namespace FreeList

variable {Ty : Type}

/-- The local `size` of the constructor (line 135): the larger of
`BlockAlloc::minElementSize` and `sizeof(Ty)`. -/
def slotSize (minElementSize sizeofTy : Nat) : Nat :=
  if minElementSize > sizeofTy then minElementSize else sizeofTy

/-- The constructor `FreeList(uint16_t _max)` (lines 133-138). `minElementSize` is the
constant `BlockAlloc::minElementSize`, `sizeofTy` is `sizeof(Ty)` and `g_realloc` the
library-wide allocator hook, called as `g_realloc(NULL, _max*size)`; the product is a
`uint32_t`. There is no test of the pointer `g_realloc` returns. -/
def new (minElementSize sizeofTy : Nat) (g_realloc : Ptr → Nat → Ptr) (_max : Nat) :
    FreeList Ty :=
  let size := slotSize minElementSize sizeofTy
  let m_memBlock := g_realloc NULL ((_max * size) % U32)
  { m_memBlock := m_memBlock
    m_allocator := BlockAlloc.new m_memBlock _max size
    objects := fun _ => none }

/-- The member `getIndex` (lines 145-148). -/
def getIndex (fl : FreeList Ty) (_obj : Ptr) : Nat :=
  fl.m_allocator.getIndex _obj

/-- The members `create` (lines 150-176): `alloc()` a slot, then construct a `Ty` in it
with a placement new-expression; `v` is the object the constructor call `Ty(args...)`
builds, for each of the four arities. The placement `operator new(size_t, void*)` is
declared `throw()` and returns the pointer it is given, and for such an allocation
function the language rules of the time of the source (C++03, 5.3.4 paragraph 13) make
a new-expression over a null pointer yield null without running the constructor. Returns
the pointer and the pool afterwards. -/
def create (fl : FreeList Ty) (v : Ty) : Ptr × FreeList Ty :=
  let got := fl.m_allocator.alloc
  let obj := got.1
  if obj = NULL then
    (NULL, { fl with m_allocator := got.2 })
  else
    (obj, { fl with m_allocator := got.2, objects := Function.update fl.objects obj (some v) })

/-- The member `destroy` (lines 178-182): run the destructor of the object, then free
its slot. -/
def destroy (fl : FreeList Ty) (_obj : Ptr) : FreeList Ty :=
  { fl with
    objects := Function.update fl.objects _obj none
    m_allocator := fl.m_allocator.free _obj }

/-- The member `getFromIndex` (lines 184-188). -/
def getFromIndex (fl : FreeList Ty) (_index : Nat) : Ptr :=
  fl.m_allocator.getFromIndex _index

end FreeList

/-- One call on a pool by a client: a create of an object or a destroy of a pointer. -/
inductive PoolOp (Ty : Type) where
  | create (v : Ty)
  | destroy (_obj : Ptr)

/-- Executes a sequence of calls on a pool; returns the pool afterwards. -/
def runPool {Ty : Type} (fl : FreeList Ty) : List (PoolOp Ty) → FreeList Ty
  | [] => fl
  | PoolOp.create v :: ops => runPool (fl.create v).2 ops
  | PoolOp.destroy p :: ops => runPool (fl.destroy p) ops

/-- Creates one object per value of the list, in order; returns the pointers the creates
returned, in order, and the pool afterwards. -/
def createAll {Ty : Type} (fl : FreeList Ty) : List Ty → List Ptr × FreeList Ty
  | [] => ([], fl)
  | v :: vs =>
    let r := fl.create v
    let rest := createAll r.2 vs
    (r.1 :: rest.1, rest.2)

/-- An allocator hook that grants every request with the block at address `block`. -/
def grantAt (block : Ptr) : Ptr → Nat → Ptr :=
  fun _ _ => block

/-- An allocator hook that refuses every request: it returns `NULL`. -/
def refuse : Ptr → Nat → Ptr :=
  fun _ _ => NULL

/-- A pool of `max` objects of a 4-byte type over a block at address 1000, with
`minElementSize` 2. -/
def intPool (max : Nat) : FreeList Int :=
  FreeList.new 2 4 (grantAt 1000) max

/-- What the calls on a pool keep: the block, the slot size, and that every unused slot
index is a 16-bit value. -/
def PoolInv {Ty : Type} (b size : Nat) (fl : FreeList Ty) : Prop :=
  fl.m_allocator.m_data = b ∧ fl.m_allocator.m_elementSize = size
    ∧ ∀ i ∈ fl.m_allocator.m_free, i < U16

/-! ## A mocked byte source, memory and a consumer -/

/-- A byte (`char`) of the buffer. -/
abbrev Byte := UInt8

/-- What a socket read works on: the memory, by address, and the bytes the peer has sent
that no read has delivered yet, oldest first. -/
structure World where
  mem : Ptr → Byte
  stream : List Byte

/-- The memory after `data` is stored at the addresses from `to_` on. -/
def storeBytes (mem : Ptr → Byte) (to_ : Ptr) (data : List Byte) : Ptr → Byte :=
  fun a => if to_ ≤ a then (data.get? (a - to_)).getD (mem a) else mem a

/-- Modelled from the spec: the socket read (`::recv` of the platform, `SSL_read` of the
TLS library) is not part of the sources; the spec has it return the number of bytes read,
0 on orderly shutdown, or a negative value on error. This is a mocked source whose read
is to answer `reply`. A positive `reply` is the number of bytes the source is willing to
deliver in this read: it delivers that many of the pending bytes, at most `len` and at
most what is pending, stores them from `to_` on and returns their number. A zero or
negative `reply` is returned as it is and nothing is stored. -/
def mockRead (reply : Int) (w : World) (to_ : Ptr) (len : Nat) : Int × World :=
  if 0 < reply then
    let n := min reply.toNat (min len w.stream.length)
    ((n : Int), { mem := storeBytes w.mem to_ (w.stream.take n), stream := w.stream.drop n })
  else (reply, w)

/-- The `n` bytes of the ring of `size` bytes at `buffer` from cursor `cur` on, in cursor
order modulo the capacity. -/
def readRing (mem : Ptr → Byte) (buffer : Ptr) (size cur n : Nat) : List Byte :=
  (List.range n).map (fun i => mem (buffer + (cur + i) % size))

/-- The consumer of a ring: its read cursor and the bytes it has read so far. -/
structure Consumer where
  m_read : Nat
  seen : List Byte

/-- Modelled from the spec: the consumer of the ring is not part of the sources; this is
a producer and a consumer that keeps up with it. `available c` is the consumer's question
to the control record in state `c`: the number of bytes that `commit` has published and
that are not consumed yet. For each reply of the list, in order, `recv` is called on a
mocked source that is to answer with that reply; after the call the consumer asks the
control record how many bytes are published, reads that many bytes of the ring from its
cursor on, in cursor order modulo the capacity, advances its cursor and tells the control
record with `consume`. Returns the receive buffer, the world and the consumer afterwards,
or `none` when a `recv` is undefined. -/
def pump {κ : Type} (ctl : RingBufferControl κ) (available : κ → Nat) :
    List Int → RecvRingBuffer κ → World → Consumer →
      Option (RecvRingBuffer κ × World × Consumer)
  | [], rb, w, k => some (rb, w, k)
  | reply :: replies, rb, w, k =>
    match rb.recv ctl (mockRead reply) w with
    | none => none
    | some out =>
      pump ctl available replies
        { out.2.1 with
          m_control := (ctl.consume out.2.1.m_control (available out.2.1.m_control)).2 }
        out.2.2
        { m_read := (k.m_read + available out.2.1.m_control) % ctl.m_size
          seen := k.seen
            ++ readRing out.2.2.mem out.2.1.m_buffer ctl.m_size k.m_read
                (available out.2.1.m_control) }

/-- The contract of a control record, started in state `c0`, towards a producer and a
consumer. The record keeps count of the bytes reserved and not yet committed
(`outstanding`) and of the bytes published and not yet consumed (`available`), both zero
in `c0`: `reserve(-1)` adds its grant to the first, `commit(n)` moves `n` bytes from the
first to the second, `consume(n)` takes `n` off the second. And the record keeps one byte
free: the bytes reserved and not yet committed always stay below the capacity. `inv` is
what the record's states satisfy. -/
def ServesRing {κ : Type} (ctl : RingBufferControl κ) (available : κ → Nat) (c0 : κ) :
    Prop :=
  ∃ (inv : κ → Prop) (outstanding : κ → Nat),
    inv c0 ∧ outstanding c0 = 0 ∧ available c0 = 0
      ∧ (∀ c, inv c → outstanding c < ctl.m_size)
      ∧ (∀ c, inv c → inv (ctl.reserve c (U32 - 1)).2
          ∧ outstanding (ctl.reserve c (U32 - 1)).2
            = outstanding c + (ctl.reserve c (U32 - 1)).1
          ∧ available (ctl.reserve c (U32 - 1)).2 = available c)
      ∧ (∀ c n, inv c → n ≤ outstanding c → inv (ctl.commit c n).2
          ∧ outstanding (ctl.commit c n).2 = outstanding c - n
          ∧ available (ctl.commit c n).2 = available c + n)
      ∧ (∀ c n, inv c → n ≤ available c → inv (ctl.consume c n).2
          ∧ outstanding (ctl.consume c n).2 = outstanding c
          ∧ available (ctl.consume c n).2 = available c - n)

/-- Modelled from the spec: what the reference control record of capacity `size` answers
a consumer: the bytes between the consumer cursor and the current producer cursor are
published and not consumed yet. -/
def ControlState.available (size : Nat) (c : ControlState) : Nat :=
  ringDistance size c.m_read c.m_current

/-- Modelled from the spec: the state of a control record that lets the producer reserve
the whole ring: the current producer cursor, the number of bytes reserved and not yet
committed, and the number of bytes published and not yet consumed. -/
structure CountState where
  m_current : Nat
  reserved : Nat
  published : Nat
  deriving DecidableEq, Repr

/-- Modelled from the spec: a control record of capacity `size` that follows the words of
the spec and no more: `reserve(n)` grants as many bytes as asked, at most the bytes of the
ring that are neither reserved nor published (so the producer never overruns the
consumer, but an empty ring is granted whole); `commit(n)` publishes `n` of the reserved
bytes and advances the current producer cursor; `consume(n)` releases `n` of the
published bytes. -/
def wholeControl (size : Nat) (h : size < U32) : RingBufferControl CountState where
  m_size := size
  m_size_lt := h
  m_current := CountState.m_current
  reserve := fun c n =>
    (min n (size - (c.reserved + c.published)),
      { c with reserved := c.reserved + min n (size - (c.reserved + c.published)) })
  commit := fun c n =>
    (min n c.reserved,
      { m_current := (c.m_current + min n c.reserved) % size
        reserved := c.reserved - min n c.reserved
        published := c.published + min n c.reserved })
  consume := fun c n =>
    (min n c.published, { c with published := c.published - min n c.published })

/-- The control record of capacity 8 that lets the whole ring be reserved. -/
def whole8 : RingBufferControl CountState := wholeControl 8 (by decide)

/-- The contract of a control record started in state `c0` that this development relies
on where it says so: the record keeps count of the bytes reserved and not yet committed
(`outstanding`, zero in `c0`), `reserve(-1)` adds its grant to that count, `commit(n)`
takes `n` off, `consume` leaves it alone, and the count always stays below the capacity:
the ring is never reserved whole. `inv` is what the record's states satisfy. -/
def KeepsOneFree {κ : Type} (ctl : RingBufferControl κ) (c0 : κ) : Prop :=
  ∃ (inv : κ → Prop) (outstanding : κ → Nat),
    inv c0 ∧ outstanding c0 = 0
      ∧ (∀ c, inv c → outstanding c < ctl.m_size)
      ∧ (∀ c, inv c → inv (ctl.reserve c (U32 - 1)).2
          ∧ outstanding (ctl.reserve c (U32 - 1)).2
            = outstanding c + (ctl.reserve c (U32 - 1)).1)
      ∧ (∀ c n, inv c → n ≤ outstanding c → inv (ctl.commit c n).2
          ∧ outstanding (ctl.commit c n).2 = outstanding c - n)
      ∧ (∀ c n, inv c → inv (ctl.consume c n).2
          ∧ outstanding (ctl.consume c n).2 = outstanding c)

/-- What the states of the reference control record of capacity `size` satisfy: the
cursors are inside the ring and the published bytes plus the reserved bytes leave one
byte free. -/
def ControlState.Inv (size : Nat) (c : ControlState) : Prop :=
  c.m_current < size ∧ c.m_write < size ∧ c.m_read < size
    ∧ ringDistance size c.m_read c.m_current + ringDistance size c.m_current c.m_write < size

/-- The bytes `A B C D E F G H`. -/
def lettersAH : List Byte := [65, 66, 67, 68, 69, 70, 71, 72]

/-- The state of a control record whose three cursors are at position 6. -/
def cursorsAt6 : ControlState := ⟨6, 6, 6⟩

/-- A memory of zero bytes. -/
def blankMem : Ptr → Byte := fun _ => 0

/-- The member `recv(SSL* _ssl)` (lines 235-256), compiled when `BNET_CONFIG_OPENSSL` is
set. `SSL_read s to len` stands for the call `SSL_read(_ssl, to, len)` on the TLS session
in state `s`: it returns the `int` result and the session afterwards. As for the socket
overload, the result is `none` when the capacity is zero (line 238 divides by it). -/
def RecvRingBuffer.recvSSL {κ σ : Type} (ctl : RingBufferControl κ)
    (SSL_read : σ → Ptr → Nat → Int × σ) (rb : RecvRingBuffer κ) (_ssl : σ) :
    Option (Int × RecvRingBuffer κ × σ) :=
  -- m_reserved += m_control.reserve(-1);
  let granted := ctl.reserve rb.m_control (U32 - 1)
  let m_reserved := addU32 rb.m_reserved granted.1
  if ctl.m_size = 0 then none
  else
    -- uint32_t end = (m_write + m_reserved) % m_control.m_size;
    let end_ := addU32 rb.m_write m_reserved % ctl.m_size
    -- uint32_t wrap = end < m_write ? m_control.m_size - m_write : m_reserved;
    let wrap := if end_ < rb.m_write then subU32 ctl.m_size rb.m_write else m_reserved
    -- char* to = &m_buffer[m_write];
    let to_ := rb.m_buffer + rb.m_write
    let got := SSL_read _ssl to_ wrap
    let bytes := got.1
    if 0 < bytes then
      some (bytes,
        { m_control := (ctl.commit granted.2 bytes.toNat).2
          m_write := addU32 rb.m_write bytes.toNat % ctl.m_size
          m_reserved := subU32 m_reserved bytes.toNat
          m_buffer := rb.m_buffer },
        got.2)
    else
      some (bytes,
        { m_control := granted.2
          m_write := rb.m_write
          m_reserved := m_reserved
          m_buffer := rb.m_buffer },
        got.2)

/-- A fresh receive buffer of capacity 8 at address 4096 with all cursors at 6. -/
def ring8At6 : RecvRingBuffer ControlState :=
  RecvRingBuffer.new control8 cursorsAt6 4096

/-- Scenario S1, first half: the pool of 4 after creating the objects 10, 20, 30. -/
def poolS1 : FreeList Int := (createAll (intPool 4) [10, 20, 30]).2

/-- Scenario S1, second half: from `poolS1`, destroy the object with handle 1 (the one
carrying 20) and create an object carrying 40; the pointer the create returns and the
pool afterwards. -/
def poolS1Reuse : Ptr × FreeList Int :=
  (poolS1.destroy (poolS1.getFromIndex 1)).create 40

/-- The `n` bytes of the memory from address `addr` on. -/
def readMem (mem : Ptr → Byte) (addr : Ptr) (n : Nat) : List Byte :=
  (List.range n).map (fun i => mem (addr + i))

/-! ## Accounting of reservations -/

/-- Totals kept at a control record: the bytes granted by its `reserve` calls and the
bytes passed to its `commit` calls. -/
structure Meter where
  granted : Nat
  committed : Nat
  deriving DecidableEq, Repr

/-- A control record that behaves as `ctl` and also keeps the totals of the bytes its
`reserve` calls granted and of the bytes passed to its `commit` calls. -/
def RingBufferControl.metered {κ : Type} (ctl : RingBufferControl κ) :
    RingBufferControl (κ × Meter) where
  m_size := ctl.m_size
  m_size_lt := ctl.m_size_lt
  m_current := fun c => ctl.m_current c.1
  reserve := fun c n =>
    ((ctl.reserve c.1 n).1,
      ((ctl.reserve c.1 n).2, ⟨c.2.granted + (ctl.reserve c.1 n).1, c.2.committed⟩))
  commit := fun c n =>
    ((ctl.commit c.1 n).1, ((ctl.commit c.1 n).2, ⟨c.2.granted, c.2.committed + n⟩))
  consume := fun c n => ((ctl.consume c.1 n).1, ((ctl.consume c.1 n).2, c.2))

/-- One step on a ring: the producer calls `recv`, or the consumer tells the shared
control record that it has consumed `n` bytes. -/
inductive RingOp where
  | recv
  | consume (n : Nat)
  deriving DecidableEq, Repr

/-- Executes a sequence of steps on a ring, every `recv` reading from the same source;
returns the receive buffer and the source afterwards, or `none` when a `recv` is
undefined. -/
def runRing {κ σ : Type} (ctl : RingBufferControl κ) (read : σ → Ptr → Nat → Int × σ) :
    List RingOp → RecvRingBuffer κ → σ → Option (RecvRingBuffer κ × σ)
  | [], rb, s => some (rb, s)
  | RingOp.recv :: ops, rb, s =>
    match rb.recv ctl read s with
    | none => none
    | some out => runRing ctl read ops out.2.1 out.2.2
  | RingOp.consume n :: ops, rb, s =>
    runRing ctl read ops { rb with m_control := (ctl.consume rb.m_control n).2 } s

/-- A source that answers each read with the next reply of a list, cut down to the
requested length, and with 0 when the list is used up; it stores nothing. -/
def scripted : List Int → Ptr → Nat → Int × List Int
  | [], _, _ => (0, [])
  | r :: rs, _, len => (min r (len : Int), rs)

/-- The receive buffer over the plain control record that a receive buffer over the
metered one stands for: the totals are dropped. -/
def RecvRingBuffer.unmeter {κ : Type} (rb : RecvRingBuffer (κ × Meter)) : RecvRingBuffer κ :=
  { m_control := rb.m_control.1
    m_write := rb.m_write
    m_reserved := rb.m_reserved
    m_buffer := rb.m_buffer }

/-- A sample sequence of steps: two recv calls, a consume of 3 bytes, two recv calls. -/
def sampleRingOps : List RingOp :=
  [RingOp.recv, RingOp.recv, RingOp.consume 3, RingOp.recv, RingOp.recv]

/-! ## Theorems -/

/-- Running calls from any queue: what was in the queue followed by what was pushed is
what the pops returned followed by what is left. -/
theorem runQueue_conserves (ops : List QueueOp) :
    ∀ q : MessageQueue, neverPopsEmpty q ops = true →
      (runQueue q ops).2 ++ (runQueue q ops).1.m_queue = q.m_queue ++ pushedBy ops := by
  induction ops with
  | nil => intro q _; simp [runQueue, pushedBy]
  | cons op ops ih =>
    intro q h
    cases op with
    | push msg =>
      have := ih (q.push msg) (by simpa [neverPopsEmpty] using h)
      simpa [runQueue, pushedBy, MessageQueue.push] using this
    | pop =>
      obtain ⟨xs⟩ := q
      cases xs with
      | nil => simp [neverPopsEmpty] at h
      | cons x rest =>
        have := ih ⟨rest⟩ (by simpa [neverPopsEmpty, MessageQueue.pop] using h)
        simpa [runQueue, pushedBy, MessageQueue.pop] using this

/-- C1: MessageQueue is strictly FIFO. For every sequence of pushes and pops run from
the empty queue that never pops an empty queue, the pushed sequence is the popped
sequence followed by what is still queued; so the popped sequence is an initial segment
of the pushed one, and equals it once the queue is drained. Scenario: after pushing
m1, m2, m3, peek returns m1 and the pops return m1, m2, m3 and then null. -/
theorem C1_queue_fifo (ops : List QueueOp)
    (h : neverPopsEmpty MessageQueue.new ops = true) :
    (runQueue MessageQueue.new ops).2 ++ (runQueue MessageQueue.new ops).1.m_queue
        = pushedBy ops
      ∧ (runQueue MessageQueue.new ops).2 <+: pushedBy ops
      ∧ ((runQueue MessageQueue.new ops).1.m_queue = [] →
          (runQueue MessageQueue.new ops).2 = pushedBy ops)
      ∧ ∀ m1 m2 m3 : Ptr,
          (((MessageQueue.new.push m1).push m2).push m3).peek
              = (m1, ((MessageQueue.new.push m1).push m2).push m3)
          ∧ runQueue (((MessageQueue.new.push m1).push m2).push m3)
              [QueueOp.pop, QueueOp.pop, QueueOp.pop, QueueOp.pop]
            = (MessageQueue.new, [m1, m2, m3, NULL]) := by
  have key : (runQueue MessageQueue.new ops).2 ++ (runQueue MessageQueue.new ops).1.m_queue
      = pushedBy ops := by
    simpa [MessageQueue.new] using runQueue_conserves ops MessageQueue.new h
  refine ⟨key, ⟨_, key⟩, ?_, ?_⟩
  · intro hq
    rw [hq, List.append_nil] at key
    exact key
  · intro m1 m2 m3
    simp [MessageQueue.new, MessageQueue.push, MessageQueue.peek, MessageQueue.pop, runQueue]

/-- Witness for C1: the interleaving push 11, push 12, pop, push 13, pop, pop. -/
theorem C1_queue_fifo_witness :
    neverPopsEmpty MessageQueue.new sampleOps = true
      ∧ (runQueue MessageQueue.new sampleOps).2
          ++ (runQueue MessageQueue.new sampleOps).1.m_queue = pushedBy sampleOps
      ∧ (runQueue MessageQueue.new sampleOps).2 = [11, 12, 13] :=
  ⟨by decide, (C1_queue_fifo sampleOps (by decide)).1, by decide⟩

/-- C10: queue empty semantics. On an empty MessageQueue peek returns null and pop
returns null, and after either call the queue is the same queue as before, so still
empty. -/
theorem C10_queue_empty (q : MessageQueue) (h : q.m_queue = []) :
    q.peek = (NULL, q) ∧ q.pop = (NULL, q) ∧ q.peek.2.m_queue = []
      ∧ q.pop.2.m_queue = [] := by
  obtain ⟨xs⟩ := q
  subst h
  simp [MessageQueue.peek, MessageQueue.pop]

/-- Witness for C10: the freshly constructed queue. -/
theorem C10_queue_empty_witness :
    MessageQueue.new.m_queue = [] ∧ MessageQueue.new.peek = (NULL, MessageQueue.new)
      ∧ MessageQueue.new.pop = (NULL, MessageQueue.new) :=
  ⟨rfl, (C10_queue_empty MessageQueue.new rfl).1, (C10_queue_empty MessageQueue.new rfl).2.1⟩

/-! ### Machine arithmetic -/

theorem addU32_of_lt {a b : Nat} (h : a + b < U32) : addU32 a b = a + b := by
  unfold addU32
  exact Nat.mod_eq_of_lt h

theorem addU32_lt (a b : Nat) : addU32 a b < U32 := by
  unfold addU32
  exact Nat.mod_lt _ (by decide)

theorem subU32_of_le {a b : Nat} (hb : b ≤ a) (ha : a < U32) : subU32 a b = a - b := by
  unfold subU32 U32 at *
  omega

/-! ### Unfolding `recv` -/

section Recv

variable {κ σ : Type}

/-- The call `recv` on a ring of positive capacity when the source answers a positive
count. -/
theorem recv_of_pos (ctl : RingBufferControl κ) (read : σ → Ptr → Nat → Int × σ)
    (rb : RecvRingBuffer κ) (s : σ) (hC : 0 < ctl.m_size)
    (hb : 0 < (read s (rb.m_buffer + rb.m_write) (rb.wrap ctl)).1) :
    rb.recv ctl read s = some
      ((read s (rb.m_buffer + rb.m_write) (rb.wrap ctl)).1,
        { m_control := (ctl.commit (ctl.reserve rb.m_control (U32 - 1)).2
            (read s (rb.m_buffer + rb.m_write) (rb.wrap ctl)).1.toNat).2
          m_write := addU32 rb.m_write
            (read s (rb.m_buffer + rb.m_write) (rb.wrap ctl)).1.toNat % ctl.m_size
          m_reserved := subU32 (rb.reservedNow ctl)
            (read s (rb.m_buffer + rb.m_write) (rb.wrap ctl)).1.toNat
          m_buffer := rb.m_buffer },
        (read s (rb.m_buffer + rb.m_write) (rb.wrap ctl)).2) := by
  have hC' : ctl.m_size ≠ 0 := Nat.pos_iff_ne_zero.mp hC
  unfold RecvRingBuffer.wrap RecvRingBuffer.reservedNow at hb
  simp only [RecvRingBuffer.recv, RecvRingBuffer.wrap, RecvRingBuffer.reservedNow, hC',
    if_false, hb, if_true]

/-- The call `recv` on a ring of positive capacity when the source answers zero or a
negative value. -/
theorem recv_of_nonpos (ctl : RingBufferControl κ) (read : σ → Ptr → Nat → Int × σ)
    (rb : RecvRingBuffer κ) (s : σ) (hC : 0 < ctl.m_size)
    (hb : (read s (rb.m_buffer + rb.m_write) (rb.wrap ctl)).1 ≤ 0) :
    rb.recv ctl read s = some
      ((read s (rb.m_buffer + rb.m_write) (rb.wrap ctl)).1,
        { m_control := (ctl.reserve rb.m_control (U32 - 1)).2
          m_write := rb.m_write
          m_reserved := rb.reservedNow ctl
          m_buffer := rb.m_buffer },
        (read s (rb.m_buffer + rb.m_write) (rb.wrap ctl)).2) := by
  have hC' : ctl.m_size ≠ 0 := Nat.pos_iff_ne_zero.mp hC
  have hb' : ¬ 0 < (read s (rb.m_buffer + rb.m_write) (rb.wrap ctl)).1 := not_lt.mpr hb
  unfold RecvRingBuffer.wrap RecvRingBuffer.reservedNow at hb'
  simp only [RecvRingBuffer.recv, RecvRingBuffer.wrap, RecvRingBuffer.reservedNow, hC',
    if_false, hb']

/-- The requests a source sees during one `recv`: exactly one, at the write cursor, for
`wrap` bytes. -/
theorem recv_spy_log (ctl : RingBufferControl κ) (read : σ → Ptr → Nat → Int × σ)
    (rb : RecvRingBuffer κ) (s : σ) (hC : 0 < ctl.m_size) :
    ∃ out, rb.recv ctl (spy read) (s, []) = some out
      ∧ out.2.2.2 = [(rb.m_buffer + rb.m_write, rb.wrap ctl)]
      ∧ (rb.recv ctl read s).map (fun o => (o.1, o.2.1)) = some (out.1, out.2.1) := by
  rcases lt_or_le 0 (read s (rb.m_buffer + rb.m_write) (rb.wrap ctl)).1 with hb | hb
  · have h1 := recv_of_pos ctl (spy read) rb (s, []) hC (by simpa [spy] using hb)
    have h2 := recv_of_pos ctl read rb s hC hb
    exact ⟨_, h1, by simp [spy], by rw [h2]; simp [spy]⟩
  · have h1 := recv_of_nonpos ctl (spy read) rb (s, []) hC (by simpa [spy] using hb)
    have h2 := recv_of_nonpos ctl read rb s hC hb
    exact ⟨_, h1, by simp [spy], by rw [h2]; simp [spy]⟩

/-! ### The contiguous span -/

/-- The span never exceeds what is reserved. -/
theorem wrap_le_reservedNow (ctl : RingBufferControl κ) (rb : RecvRingBuffer κ)
    (hw : rb.m_write < ctl.m_size) : rb.wrap ctl ≤ rb.reservedNow ctl := by
  have hlt := ctl.m_size_lt
  unfold RecvRingBuffer.wrap
  split_ifs with h
  · rw [subU32_of_le (le_of_lt hw) hlt]
    by_contra hcon
    have hsum : rb.m_write + rb.reservedNow ctl < ctl.m_size := by omega
    rw [addU32_of_lt (lt_trans hsum hlt), Nat.mod_eq_of_lt hsum] at h
    omega
  · exact le_refl _

/-- Closed form of the span when less than the whole capacity is reserved. -/
theorem wrap_eq_min (ctl : RingBufferControl κ) (rb : RecvRingBuffer κ)
    (hw : rb.m_write < ctl.m_size) (hr : rb.reservedNow ctl < ctl.m_size) :
    rb.wrap ctl = min (rb.reservedNow ctl) (ctl.m_size - rb.m_write) := by
  have hlt := ctl.m_size_lt
  have hle := wrap_le_reservedNow ctl rb hw
  unfold RecvRingBuffer.wrap at hle ⊢
  split_ifs at hle ⊢ with h
  · rw [subU32_of_le (le_of_lt hw) hlt] at hle ⊢
    omega
  · have hfit : rb.m_write + rb.reservedNow ctl ≤ ctl.m_size := by
      by_contra hcon
      apply h
      rcases lt_or_le (rb.m_write + rb.reservedNow ctl) U32 with ho | ho
      · rw [addU32_of_lt ho]
        have : (rb.m_write + rb.reservedNow ctl) % ctl.m_size
            = rb.m_write + rb.reservedNow ctl - ctl.m_size := by
          rw [Nat.mod_eq_sub_mod (by omega)]
          exact Nat.mod_eq_of_lt (by omega)
        omega
      · have hs : addU32 rb.m_write (rb.reservedNow ctl)
            = rb.m_write + rb.reservedNow ctl - U32 := by
          unfold addU32
          rw [Nat.mod_eq_sub_mod ho]
          exact Nat.mod_eq_of_lt (by omega)
        rw [hs]
        exact lt_of_le_of_lt (Nat.mod_le _ _) (by omega)
    omega

end Recv

/-! ### Claims about one `recv` call -/

section RecvClaims

variable {κ σ : Type}

theorem wrap_withTrace (ctl : RingBufferControl κ) (rb : RecvRingBuffer κ) :
    rb.withTrace.wrap ctl.traced = rb.wrap ctl := rfl

/-- C2 (as amended): for every RecvRingBuffer state of positive capacity and every source
whose read returns zero or a negative value, recv returns that value, leaves the write
cursor and the buffer pointer as they were and calls no commit. The state does change by
the reservation step, which comes before the read: the local reserved count grows by
what reserve(-1) granted (modulo 2^32), and the control record is as that one reserve(-1)
call left it. When reserve(-1) grants nothing and leaves the control record as it was,
the whole state is as before the call. -/
theorem C2_recv_nonpositive (ctl : RingBufferControl κ) (read : σ → Ptr → Nat → Int × σ)
    (rb : RecvRingBuffer κ) (s : σ) (hC : 0 < ctl.m_size)
    (hb : (read s (rb.m_buffer + rb.m_write) (rb.wrap ctl)).1 ≤ 0) :
    rb.recv ctl read s = some
        ((read s (rb.m_buffer + rb.m_write) (rb.wrap ctl)).1,
          { m_control := (ctl.reserve rb.m_control (U32 - 1)).2
            m_write := rb.m_write
            m_reserved := addU32 rb.m_reserved (ctl.reserve rb.m_control (U32 - 1)).1
            m_buffer := rb.m_buffer },
          (read s (rb.m_buffer + rb.m_write) (rb.wrap ctl)).2)
      ∧ (rb.withTrace.recv ctl.traced read s).map (fun o => o.2.1.m_control.2)
          = some [ControlCall.reserve (U32 - 1)]
      ∧ (ctl.reserve rb.m_control (U32 - 1) = (0, rb.m_control) → rb.m_reserved < U32 →
          (rb.recv ctl read s).map (fun o => o.2.1) = some rb) := by
  have h1 := recv_of_nonpos ctl read rb s hC hb
  refine ⟨h1, ?_, ?_⟩
  · have h2 := recv_of_nonpos ctl.traced read rb.withTrace s hC hb
    rw [h2]
    rfl
  · intro hg hr
    rw [h1]
    obtain ⟨c, w, r, b⟩ := rb
    simp only [RecvRingBuffer.reservedNow, Option.map_some', Option.some.injEq] at hg hr ⊢
    rw [hg]
    simp only [addU32, Nat.add_zero, Nat.mod_eq_of_lt hr]

/-- Witness for C2: a fresh ring of capacity 8 whose source answers 0. -/
theorem C2_recv_nonpositive_witness :
    0 < control8.m_size
      ∧ fresh8.recv control8 (answer 0) ()
          = some (0, { m_control := ⟨0, 7, 0⟩, m_write := 0, m_reserved := 7,
                       m_buffer := 4096 }, ()) :=
  ⟨by decide, (C2_recv_nonpositive control8 (answer 0) fresh8 () (by decide) (by decide)).1⟩

/-- Counterexample to C2 as stated: on a fresh ring of capacity 8 whose source answers 0,
recv returns 0, yet the local reserved count goes from 0 to 7 and the control record
from cursors (0, 0, 0) to (0, 7, 0). -/
theorem C2_counterexample :
    fresh8.recv control8 (answer 0) ()
        = some (0, { m_control := ⟨0, 7, 0⟩, m_write := 0, m_reserved := 7,
                     m_buffer := 4096 }, ())
      ∧ fresh8.m_reserved = 0 ∧ fresh8.m_control = ⟨0, 0, 0⟩
      ∧ ¬ (∀ out, fresh8.recv control8 (answer 0) () = some out →
            out.2.1.m_write = fresh8.m_write ∧ out.2.1.m_reserved = fresh8.m_reserved
              ∧ out.2.1.m_control = fresh8.m_control) := by
  refine ⟨by decide, rfl, rfl, ?_⟩
  intro h
  have h2 := (h _ (by decide : fresh8.recv control8 (answer 0) ()
        = some (0, { m_control := ⟨0, 7, 0⟩, m_write := 0, m_reserved := 7,
                     m_buffer := 4096 }, ()))).2.1
  revert h2
  decide

end RecvClaims

section RecvSpan

variable {κ σ : Type}

/-- C3 (as amended): one recv call performs at most one contiguous read that stops at
the physical end of the buffer. For every RecvRingBuffer state with write cursor below
the capacity and local reserved count (after adding the newly granted reservation) at
most the capacity, and strictly below the capacity unless the write cursor is 0, the
source is asked exactly once, at the write cursor, for a length L with
write + L <= capacity. In particular, with the write cursor at C - k a source that
returns no more than it is asked for makes the call return at most k. -/
theorem C3_recv_stops_at_end (ctl : RingBufferControl κ) (rb : RecvRingBuffer κ)
    (hw : rb.m_write < ctl.m_size) (hr : rb.reservedNow ctl ≤ ctl.m_size)
    (hr' : rb.reservedNow ctl < ctl.m_size ∨ rb.m_write = 0) :
    rb.m_write + rb.wrap ctl ≤ ctl.m_size
      ∧ (∀ (read : σ → Ptr → Nat → Int × σ) (s : σ),
          (rb.recv ctl (spy read) (s, [])).map (fun o => o.2.2.2)
            = some [(rb.m_buffer + rb.m_write, rb.wrap ctl)])
      ∧ (∀ (read : σ → Ptr → Nat → Int × σ) (s : σ) (k : Nat),
          rb.m_write = ctl.m_size - k →
          (read s (rb.m_buffer + rb.m_write) (rb.wrap ctl)).1 ≤ (rb.wrap ctl : Int) →
          ∃ out, rb.recv ctl read s = some out ∧ out.1 ≤ (k : Int)) := by
  have hC : 0 < ctl.m_size := by omega
  have hfit : rb.m_write + rb.wrap ctl ≤ ctl.m_size := by
    rcases hr' with h | h
    · rw [wrap_eq_min ctl rb hw h]
      omega
    · have hle := wrap_le_reservedNow ctl rb hw
      omega
  refine ⟨hfit, ?_, ?_⟩
  · intro read s
    obtain ⟨out, h1, h2, _⟩ := recv_spy_log ctl read rb s hC
    rw [h1]
    simp [h2]
  · intro read s k hk hle
    have hk' : (rb.wrap ctl : Int) ≤ (k : Int) := by
      have : rb.wrap ctl ≤ k := by omega
      exact_mod_cast this
    rcases lt_or_le 0 (read s (rb.m_buffer + rb.m_write) (rb.wrap ctl)).1 with hb | hb
    · exact ⟨_, recv_of_pos ctl read rb s hC hb, le_trans hle hk'⟩
    · exact ⟨_, recv_of_nonpos ctl read rb s hC hb, le_trans hle hk'⟩

/-- Witness for C3: a fresh ring of capacity 8; 7 bytes are reserved and asked for. -/
theorem C3_recv_stops_at_end_witness :
    fresh8.m_write < control8.m_size ∧ fresh8.reservedNow control8 ≤ control8.m_size
      ∧ fresh8.m_write + fresh8.wrap control8 ≤ control8.m_size
      ∧ fresh8.wrap control8 = 7 :=
  ⟨by decide, by decide,
    (@C3_recv_stops_at_end ControlState Unit control8 fresh8 (by decide) (by decide)
      (Or.inl (by decide))).1,
    by decide⟩

/-- Counterexample to C3 as stated: capacity 8, write cursor 6 and 8 bytes reserved.
The reserved count is at most the capacity, yet recv asks the source for 8 bytes at
cursor 6 (address 4096 + 6), so the read would end at position 14, beyond the capacity. -/
theorem C3_counterexample :
    full8.m_write < control8.m_size ∧ full8.reservedNow control8 ≤ control8.m_size
      ∧ (full8.recv control8 (spy (answer 8)) ((), [])).map (fun o => o.2.2.2)
          = some [(4096 + 6, 8)]
      ∧ full8.wrap control8 = 8
      ∧ ¬ (full8.m_write + full8.wrap control8 ≤ control8.m_size) := by
  decide

/-- C4: for every RecvRingBuffer state with capacity > 0 and every source read that
returns n > 0, recv returns n, sets the write cursor to (write + n) mod capacity, sets
the local reserved count to (reserved + granted) - n, where granted is what reserve(-1)
returned in this call, and calls commit on the control record exactly once, with
argument n, right after the one reserve(-1) call: no other bytes are committed. The sums
and the difference are those of uint32_t; they are the plain ones when write + n and
reserved + granted stay below 2^32 and n is at most reserved + granted. -/
theorem C4_recv_positive (ctl : RingBufferControl κ) (read : σ → Ptr → Nat → Int × σ)
    (rb : RecvRingBuffer κ) (s : σ) (n : Nat) (hC : 0 < ctl.m_size) (hn : 0 < n)
    (hb : (read s (rb.m_buffer + rb.m_write) (rb.wrap ctl)).1 = (n : Int)) :
    rb.recv ctl read s = some
        ((n : Int),
          { m_control := (ctl.commit (ctl.reserve rb.m_control (U32 - 1)).2 n).2
            m_write := addU32 rb.m_write n % ctl.m_size
            m_reserved :=
              subU32 (addU32 rb.m_reserved (ctl.reserve rb.m_control (U32 - 1)).1) n
            m_buffer := rb.m_buffer },
          (read s (rb.m_buffer + rb.m_write) (rb.wrap ctl)).2)
      ∧ (rb.withTrace.recv ctl.traced read s).map (fun o => o.2.1.m_control.2)
          = some [ControlCall.reserve (U32 - 1), ControlCall.commit n]
      ∧ (rb.m_write + n < U32 → addU32 rb.m_write n % ctl.m_size
          = (rb.m_write + n) % ctl.m_size)
      ∧ (rb.m_reserved + (ctl.reserve rb.m_control (U32 - 1)).1 < U32 →
          n ≤ rb.m_reserved + (ctl.reserve rb.m_control (U32 - 1)).1 →
          subU32 (addU32 rb.m_reserved (ctl.reserve rb.m_control (U32 - 1)).1) n
            = rb.m_reserved + (ctl.reserve rb.m_control (U32 - 1)).1 - n) := by
  have hpos : 0 < (read s (rb.m_buffer + rb.m_write) (rb.wrap ctl)).1 := by
    rw [hb]; exact_mod_cast hn
  refine ⟨?_, ?_, ?_, ?_⟩
  · have h1 := recv_of_pos ctl read rb s hC hpos
    rw [h1, hb]
    rfl
  · have h2 := recv_of_pos ctl.traced read rb.withTrace s hC hpos
    rw [h2]
    change some ([] ++ [ControlCall.reserve (U32 - 1)]
      ++ [ControlCall.commit (read s (rb.m_buffer + rb.m_write) (rb.wrap ctl)).1.toNat]) = _
    rw [hb]
    rfl
  · intro h
    rw [addU32_of_lt h]
  · intro h1 h2
    rw [addU32_of_lt h1, subU32_of_le h2 h1]

/-- Witness for C4: a fresh ring of capacity 8 whose source answers 3: the write cursor
goes to 3, 4 of the 7 granted bytes stay reserved, 3 bytes are committed. -/
theorem C4_recv_positive_witness :
    0 < control8.m_size ∧ 0 < 3
      ∧ fresh8.recv control8 (answer 3) ()
          = some (3, { m_control := ⟨3, 7, 0⟩, m_write := 3, m_reserved := 4,
                       m_buffer := 4096 }, ()) :=
  ⟨by decide, by decide,
    (C4_recv_positive control8 (answer 3) fresh8 () 3 (by decide) (by decide) (by decide)).1⟩

end RecvSpan

/-! ### The handle pool -/

section Pool

variable {Ty : Type}

theorem slotSize_pos (minElementSize sizeofTy : Nat) (h : 0 < sizeofTy) :
    0 < FreeList.slotSize minElementSize sizeofTy := by
  unfold FreeList.slotSize
  split_ifs <;> omega

/-- Index and address of a slot are inverse to each other for 16-bit indices. -/
theorem BlockAlloc.getIndex_getFromIndex (a : BlockAlloc) (i : Nat) (hs : 0 < a.m_elementSize)
    (hi : i < U16) : a.getIndex (a.getFromIndex i) = i := by
  unfold BlockAlloc.getIndex BlockAlloc.getFromIndex
  rw [Nat.add_sub_cancel_left, Nat.mul_div_cancel _ hs]
  exact Nat.mod_eq_of_lt hi

theorem PoolInv_new (minElementSize sizeofTy : Nat) (g_realloc : Ptr → Nat → Ptr) (max : Nat)
    (hmax : max < U16) :
    PoolInv (g_realloc NULL ((max * FreeList.slotSize minElementSize sizeofTy) % U32))
      (FreeList.slotSize minElementSize sizeofTy)
      (FreeList.new minElementSize sizeofTy g_realloc max : FreeList Ty) := by
  refine ⟨rfl, rfl, ?_⟩
  intro i hi
  have : i < max := by simpa [FreeList.new, BlockAlloc.new] using hi
  omega

theorem PoolInv_create {b size : Nat} {fl : FreeList Ty} (h : PoolInv b size fl) (v : Ty) :
    PoolInv b size (fl.create v).2
      ∧ ((fl.create v).1 ≠ NULL → ∃ i, i < U16 ∧ (fl.create v).1 = b + i * size) := by
  obtain ⟨hb, hs, hf⟩ := h
  obtain ⟨blk, a, objs⟩ := fl
  obtain ⟨d, num, es, free⟩ := a
  simp only at hb hs hf
  subst hb hs
  cases free with
  | nil =>
    simp [FreeList.create, BlockAlloc.alloc, PoolInv]
  | cons i rest =>
    have hi : i < U16 := hf i (List.mem_cons_self _ _)
    have hrest : ∀ j ∈ rest, j < U16 := fun j hj => hf j (List.mem_cons_of_mem _ hj)
    by_cases hnull : d + i * es = NULL
    · simp only [FreeList.create, BlockAlloc.alloc, BlockAlloc.getFromIndex, hnull, if_true,
        PoolInv, ne_eq, not_true_eq_false, false_implies, and_true, true_and]
      exact hrest
    · refine ⟨?_, fun _ => ⟨i, hi, ?_⟩⟩
      · simp only [FreeList.create, BlockAlloc.alloc, BlockAlloc.getFromIndex, hnull,
          if_false, PoolInv, true_and]
        exact hrest
      · simp only [FreeList.create, BlockAlloc.alloc, BlockAlloc.getFromIndex, hnull,
          if_false]

theorem PoolInv_destroy {b size : Nat} {fl : FreeList Ty} (h : PoolInv b size fl) (p : Ptr) :
    PoolInv b size (fl.destroy p) := by
  obtain ⟨hb, hs, hf⟩ := h
  refine ⟨hb, hs, ?_⟩
  intro i hi
  simp only [FreeList.destroy, BlockAlloc.free, List.mem_cons] at hi
  rcases hi with rfl | hi
  · exact Nat.mod_lt _ (by decide)
  · exact hf i hi

theorem PoolInv_runPool {b size : Nat} (ops : List (PoolOp Ty)) :
    ∀ fl : FreeList Ty, PoolInv b size fl → PoolInv b size (runPool fl ops) := by
  induction ops with
  | nil => intro fl h; exact h
  | cons op ops ih =>
    intro fl h
    cases op with
    | create v => exact ih _ (PoolInv_create h v).1
    | destroy p => exact ih _ (PoolInv_destroy h p)

/-- C7: handle round-trip. Take a pool built by the constructor (for a `uint16_t`
capacity and a type of positive size), run any creates and destroys on it, then create
an object: if the create succeeds with pointer obj, then in every pool state reached
from there by further creates and destroys, in particular in every state before
destroy(obj) is called, getFromIndex(getIndex(obj)) is obj. -/
theorem C7_handle_round_trip (minElementSize sizeofTy : Nat) (g_realloc : Ptr → Nat → Ptr)
    (max : Nat) (before after : List (PoolOp Ty)) (v : Ty)
    (hsize : 0 < sizeofTy) (hmax : max < U16)
    (hobj : ((runPool (FreeList.new minElementSize sizeofTy g_realloc max) before).create v).1
      ≠ NULL) :
    (runPool ((runPool (FreeList.new minElementSize sizeofTy g_realloc max) before).create
        v).2 after).getFromIndex
      ((runPool ((runPool (FreeList.new minElementSize sizeofTy g_realloc max) before).create
        v).2 after).getIndex
        ((runPool (FreeList.new minElementSize sizeofTy g_realloc max) before).create v).1)
      = ((runPool (FreeList.new minElementSize sizeofTy g_realloc max) before).create v).1 := by
  have h0 := @PoolInv_new Ty minElementSize sizeofTy g_realloc max hmax
  have h1 := PoolInv_runPool before _ h0
  obtain ⟨h2, hptr⟩ := PoolInv_create h1 v
  obtain ⟨i, hi, hp⟩ := hptr hobj
  obtain ⟨hb, hs, _⟩ := PoolInv_runPool after _ h2
  have hpos := slotSize_pos minElementSize sizeofTy hsize
  rw [hp]
  unfold FreeList.getFromIndex FreeList.getIndex
  have hidx := BlockAlloc.getIndex_getFromIndex
    (runPool ((runPool (FreeList.new minElementSize sizeofTy g_realloc max) before).create
        v).2 after).m_allocator i (by rw [hs]; exact hpos) hi
  unfold BlockAlloc.getFromIndex at hidx ⊢
  rw [hb, hs] at hidx ⊢
  rw [hidx]

/-- Witness for C7: in a pool of 4, create 10 and 20, destroy the first, create 30 (it
lands at 1000); later create 40 and destroy the second: the handle of 30 still leads to
address 1000. -/
theorem C7_handle_round_trip_witness :
    ((runPool (intPool 4) [PoolOp.create 10, PoolOp.create 20, PoolOp.destroy 1000]).create
        30).1 = 1000
      ∧ (runPool ((runPool (intPool 4)
            [PoolOp.create 10, PoolOp.create 20, PoolOp.destroy 1000]).create 30).2
          [PoolOp.create 40, PoolOp.destroy 1004]).getFromIndex
        ((runPool ((runPool (intPool 4)
            [PoolOp.create 10, PoolOp.create 20, PoolOp.destroy 1000]).create 30).2
          [PoolOp.create 40, PoolOp.destroy 1004]).getIndex
          ((runPool (intPool 4)
            [PoolOp.create 10, PoolOp.create 20, PoolOp.destroy 1000]).create 30).1)
        = ((runPool (intPool 4)
            [PoolOp.create 10, PoolOp.create 20, PoolOp.destroy 1000]).create 30).1 :=
  ⟨by decide,
    C7_handle_round_trip 2 4 (grantAt 1000) 4
      [PoolOp.create 10, PoolOp.create 20, PoolOp.destroy 1000]
      [PoolOp.create 40, PoolOp.destroy 1004] 30 (by decide) (by decide) (by decide)⟩

end Pool

section PoolCapacity

variable {Ty : Type}

/-- Creating one object per unused slot, on a block that is not null: the creates return
the slots in the order of the list of unused slots, and use them up. -/
theorem createAll_uses_free (vs : List Ty) :
    ∀ (fl : FreeList Ty) (slots rest : List Nat),
      fl.m_allocator.m_free = slots ++ rest → vs.length = slots.length →
      fl.m_allocator.m_data ≠ NULL →
      (createAll fl vs).1
          = slots.map (fun i => fl.m_allocator.m_data + i * fl.m_allocator.m_elementSize)
        ∧ (createAll fl vs).2.m_allocator = { fl.m_allocator with m_free := rest } := by
  induction vs with
  | nil =>
    intro fl slots rest hfree hlen _
    have hs : slots = [] := List.length_eq_zero.mp hlen.symm
    subst hs
    obtain ⟨blk, ⟨d, num, es, free⟩, objs⟩ := fl
    simp only [List.nil_append] at hfree
    simp [createAll, hfree]
  | cons v vs ih =>
    intro fl slots rest hfree hlen hd
    cases slots with
    | nil => exact absurd hlen (by simp)
    | cons i slots =>
      obtain ⟨blk, ⟨d, num, es, free⟩, objs⟩ := fl
      simp only [List.cons_append] at hfree
      simp only at hd
      subst hfree
      have hne : d + i * es ≠ NULL :=
        Nat.ne_of_gt (Nat.add_pos_left (Nat.pos_of_ne_zero hd) _)
      have hstep := ih
        (FreeList.create ⟨blk, ⟨d, num, es, i :: (slots ++ rest)⟩, objs⟩ v).2 slots rest
        (by simp [FreeList.create, BlockAlloc.alloc, BlockAlloc.getFromIndex, hne])
        (by simpa using hlen)
        (by simpa [FreeList.create, BlockAlloc.alloc, BlockAlloc.getFromIndex, hne] using hd)
      refine ⟨?_, ?_⟩
      · simp only [createAll, List.map_cons, hstep.1]
        simp [FreeList.create, BlockAlloc.alloc, BlockAlloc.getFromIndex, hne]
      · simp only [createAll, hstep.2]
        simp [FreeList.create, BlockAlloc.alloc, BlockAlloc.getFromIndex, hne]

/-- C8: pool capacity. For every pool built with a `uint16_t` capacity max over a block
the allocator granted, max creates in a row all succeed (each returns the non-null
address of its own slot); the next create fails: it returns null, the Exhausted report,
and constructs no object; and after the destroy of any one of the created objects the
next create succeeds again, returns the destroyed object's slot (so its index equals
that of the destroyed slot) and constructs the new object there. -/
theorem C8_pool_capacity (minElementSize sizeofTy : Nat) (g_realloc : Ptr → Nat → Ptr)
    (max : Nat) (vs : List Ty) (v : Ty) (hsize : 0 < sizeofTy) (hmax : max < U16)
    (hblock : g_realloc NULL ((max * FreeList.slotSize minElementSize sizeofTy) % U32) ≠ NULL)
    (hlen : vs.length = max) :
    (createAll (FreeList.new minElementSize sizeofTy g_realloc max) vs).1
        = (List.range max).map (fun i =>
            g_realloc NULL ((max * FreeList.slotSize minElementSize sizeofTy) % U32)
              + i * FreeList.slotSize minElementSize sizeofTy)
      ∧ (∀ p ∈ (createAll (FreeList.new minElementSize sizeofTy g_realloc max) vs).1,
          p ≠ NULL)
      ∧ ((createAll (FreeList.new minElementSize sizeofTy g_realloc max) vs).2.create v).1
          = NULL
      ∧ ((createAll (FreeList.new minElementSize sizeofTy g_realloc max) vs).2.create
            v).2.objects
          = (createAll (FreeList.new minElementSize sizeofTy g_realloc max) vs).2.objects
      ∧ ∀ p ∈ (createAll (FreeList.new minElementSize sizeofTy g_realloc max) vs).1,
          (((createAll (FreeList.new minElementSize sizeofTy g_realloc max) vs).2.destroy
              p).create v).1 = p
            ∧ (((createAll (FreeList.new minElementSize sizeofTy g_realloc max) vs).2.destroy
              p).create v).2.objects p = some v := by
  have hpos := slotSize_pos minElementSize sizeofTy hsize
  obtain ⟨hptrs, halloc⟩ := createAll_uses_free vs
    (FreeList.new minElementSize sizeofTy g_realloc max) (List.range max) []
    (by simp [FreeList.new, BlockAlloc.new]) (by simp [hlen]) hblock
  have hnonnull : ∀ p ∈ (createAll (FreeList.new minElementSize sizeofTy g_realloc max) vs).1,
      p ≠ NULL := by
    intro p hp
    rw [hptrs] at hp
    obtain ⟨i, _, rfl⟩ := List.mem_map.mp hp
    exact Nat.ne_of_gt (Nat.add_pos_left (Nat.pos_of_ne_zero hblock) _)
  refine ⟨hptrs, hnonnull, ?_, ?_, ?_⟩
  · simp [FreeList.create, BlockAlloc.alloc, halloc]
  · simp [FreeList.create, BlockAlloc.alloc, halloc]
  · intro p hp
    have hpne := hnonnull p hp
    rw [hptrs] at hp
    obtain ⟨i, hi, hpi⟩ := List.mem_map.mp hp
    have hi' : i < U16 := lt_trans (List.mem_range.mp hi) hmax
    have hidx : BlockAlloc.getIndex
        (createAll (FreeList.new minElementSize sizeofTy g_realloc max) vs).2.m_allocator p
        = i := by
      rw [halloc, ← hpi]
      exact BlockAlloc.getIndex_getFromIndex _ i hpos hi'
    have hback : BlockAlloc.getFromIndex
        (createAll (FreeList.new minElementSize sizeofTy g_realloc max) vs).2.m_allocator i
        = p := by
      rw [halloc, ← hpi]
      rfl
    simp only [BlockAlloc.getFromIndex] at hback
    simp [FreeList.create, FreeList.destroy, BlockAlloc.alloc, BlockAlloc.free,
      BlockAlloc.getFromIndex, hidx, hback, hpne]

/-- Witness for C8, scenario S6: with max = 2, two creates succeed (at 1000 and 1004),
the third fails; after destroying the object at 1004 a create succeeds at 1004. -/
theorem C8_pool_capacity_witness :
    (createAll (intPool 2) [10, 20]).1 = [1000, 1004]
      ∧ ((createAll (intPool 2) [10, 20]).2.create 30).1 = NULL
      ∧ (((createAll (intPool 2) [10, 20]).2.destroy 1004).create 30).1 = 1004 :=
  ⟨(C8_pool_capacity 2 4 (grantAt 1000) 2 [10, 20] 30 (by decide) (by decide) (by decide)
      rfl).1,
    (C8_pool_capacity 2 4 (grantAt 1000) 2 [10, 20] 30 (by decide) (by decide) (by decide)
      rfl).2.2.1,
    by decide⟩

/-- C9 (as amended): construction of a pool has no failure path. Whenever the
library-wide allocator refuses the request for the memory block (returns null),
construction still completes: the pool keeps the null block pointer and its block
allocator is initialised over the null block, with max slots of the slot size, and no
object is live. -/
theorem C9_construct_over_null (minElementSize sizeofTy : Nat) (g_realloc : Ptr → Nat → Ptr)
    (max : Nat)
    (hnull : g_realloc NULL ((max * FreeList.slotSize minElementSize sizeofTy) % U32) = NULL) :
    (FreeList.new minElementSize sizeofTy g_realloc max : FreeList Ty).m_memBlock = NULL
      ∧ (FreeList.new minElementSize sizeofTy g_realloc max : FreeList Ty).m_allocator
          = BlockAlloc.new NULL max (FreeList.slotSize minElementSize sizeofTy)
      ∧ ∀ p, (FreeList.new minElementSize sizeofTy g_realloc max : FreeList Ty).objects p
          = none := by
  refine ⟨?_, ?_, fun _ => rfl⟩ <;> simp [FreeList.new, hnull]

/-- Witness for C9: a pool of 4 four-byte objects when the allocator refuses. -/
theorem C9_construct_over_null_witness :
    refuse NULL ((4 * FreeList.slotSize 2 4) % U32) = NULL
      ∧ (FreeList.new 2 4 refuse 4 : FreeList Int).m_allocator = BlockAlloc.new NULL 4 4 :=
  ⟨rfl, (@C9_construct_over_null Int 2 4 refuse 4 rfl).2.1⟩

/-- Counterexample to C9 as stated: the allocator refuses the block of a pool of 4
four-byte objects, and the constructor still builds the pool: its block pointer is null
and its block allocator is the one initialised over the null block, all 4 slots unused. -/
theorem C9_counterexample :
    refuse NULL ((4 * FreeList.slotSize 2 4) % U32) = NULL
      ∧ (FreeList.new 2 4 refuse 4 : FreeList Int).m_memBlock = NULL
      ∧ (FreeList.new 2 4 refuse 4 : FreeList Int).m_allocator
          = { m_data := NULL, m_num := 4, m_elementSize := 4, m_free := [0, 1, 2, 3] }
      ∧ ¬ ((FreeList.new 2 4 refuse 4 : FreeList Int).m_allocator
            ≠ BlockAlloc.new NULL 4 4) := by
  refine ⟨rfl, rfl, by decide, by decide⟩

end PoolCapacity

/-! ### The reference control record keeps one byte free -/

theorem mod_of_lt_two_mul (x size : Nat) (h : x < 2 * size) :
    x % size = if x < size then x else x - size := by
  split_ifs with hx
  · exact Nat.mod_eq_of_lt hx
  · rw [Nat.mod_eq_sub_mod (by omega)]
    exact Nat.mod_eq_of_lt (by omega)

theorem ControlState.reserve_all (size : Nat) (hsz : size < U32) (c : ControlState)
    (h : ControlState.Inv size c) :
    ControlState.Inv size (ControlState.reserve size c (U32 - 1)).2
      ∧ ringDistance size (ControlState.reserve size c (U32 - 1)).2.m_current
          (ControlState.reserve size c (U32 - 1)).2.m_write
        = ringDistance size c.m_current c.m_write + (ControlState.reserve size c (U32 - 1)).1 := by
  obtain ⟨cur, wr, rd⟩ := c
  obtain ⟨h1, h2, h3, h4⟩ := h
  simp only at h1 h2 h3 h4
  unfold ControlState.Inv ControlState.reserve
  simp only
  have hmin : ∀ m, m < size → min (U32 - 1) m = m := by
    intro m hm
    exact Nat.min_eq_right (by omega)
  have hms : (if ringDistance size wr rd = 0 then size - 1 else ringDistance size wr rd - 1)
      < size := by
    unfold ringDistance
    split_ifs <;> omega
  rw [hmin _ hms]
  rw [mod_of_lt_two_mul _ size (by omega)]
  unfold ringDistance at h4 hms ⊢
  split_ifs at h4 hms ⊢ <;> omega

theorem ControlState.commit_some (size : Nat) (c : ControlState) (n : Nat)
    (h : ControlState.Inv size c) (hn : n ≤ ringDistance size c.m_current c.m_write) :
    ControlState.Inv size (ControlState.commit size c n).2
      ∧ ringDistance size (ControlState.commit size c n).2.m_current
          (ControlState.commit size c n).2.m_write
        = ringDistance size c.m_current c.m_write - n := by
  obtain ⟨cur, wr, rd⟩ := c
  obtain ⟨h1, h2, h3, h4⟩ := h
  simp only at h1 h2 h3 h4 hn
  unfold ControlState.Inv ControlState.commit
  simp only
  rw [Nat.min_eq_left hn]
  have hlt : n < size := by
    unfold ringDistance at hn
    split_ifs at hn <;> omega
  rw [mod_of_lt_two_mul _ size (by omega)]
  unfold ringDistance at h4 hn ⊢
  split_ifs at h4 hn ⊢ <;> omega

theorem ControlState.consume_any (size : Nat) (c : ControlState) (n : Nat)
    (h : ControlState.Inv size c) :
    ControlState.Inv size (ControlState.consume size c n).2
      ∧ ringDistance size (ControlState.consume size c n).2.m_current
          (ControlState.consume size c n).2.m_write
        = ringDistance size c.m_current c.m_write := by
  obtain ⟨cur, wr, rd⟩ := c
  obtain ⟨h1, h2, h3, h4⟩ := h
  simp only at h1 h2 h3 h4
  refine ⟨?_, rfl⟩
  unfold ControlState.Inv ControlState.consume
  simp only
  have hlt : min n (ringDistance size rd cur) < size := by
    have : ringDistance size rd cur < size := by omega
    exact lt_of_le_of_lt (Nat.min_le_right _ _) this
  have hle : min n (ringDistance size rd cur) ≤ ringDistance size rd cur := Nat.min_le_right _ _
  generalize min n (ringDistance size rd cur) = m at hlt hle ⊢
  rw [mod_of_lt_two_mul _ size (by omega)]
  unfold ringDistance at h4 hle ⊢
  split_ifs at h4 hle ⊢ <;> omega

/-- The reference control record, started with its three cursors at one position of the
ring, meets the contract `KeepsOneFree`. -/
theorem refControl_keepsOneFree (size : Nat) (hsz : size < U32) (p : Nat) (hp : p < size) :
    KeepsOneFree (refControl size hsz) ⟨p, p, p⟩ := by
  refine ⟨ControlState.Inv size, fun c => ringDistance size c.m_current c.m_write, ?_, ?_,
    ?_, ?_, ?_, ?_⟩
  · refine ⟨hp, hp, hp, ?_⟩
    simp only [ringDistance, le_refl, if_true]
    omega
  · simp [ringDistance]
  · intro c hc
    have := hc.2.2.2
    change ringDistance size c.m_current c.m_write < size
    omega
  · intro c hc
    exact ControlState.reserve_all size hsz c hc
  · intro c n hc hn
    exact ControlState.commit_some size c n hc hn
  · intro c n hc
    exact ControlState.consume_any size c n hc

/-! ### Byte order through the ring -/

theorem mockRead_nonpos (reply : Int) (w : World) (to_ : Ptr) (len : Nat)
    (h : (mockRead reply w to_ len).1 ≤ 0) :
    (mockRead reply w to_ len).2.stream = w.stream := by
  unfold mockRead at h ⊢
  split_ifs at h ⊢ with hr
  · have h0 : min reply.toNat (min len w.stream.length) = 0 := by
      simp only at h
      omega
    simp only [h0, List.drop_zero]
  · rfl

theorem mockRead_pos (reply : Int) (w : World) (to_ : Ptr) (len : Nat)
    (h : 0 < (mockRead reply w to_ len).1) :
    (mockRead reply w to_ len).1.toNat ≤ len
      ∧ (mockRead reply w to_ len).1.toNat ≤ w.stream.length
      ∧ (mockRead reply w to_ len).2.stream = w.stream.drop (mockRead reply w to_ len).1.toNat
      ∧ (mockRead reply w to_ len).2.mem
          = storeBytes w.mem to_ (w.stream.take (mockRead reply w to_ len).1.toNat) := by
  unfold mockRead at h ⊢
  split_ifs at h ⊢ with hr
  · refine ⟨?_, ?_, rfl, rfl⟩
    · simp only [Int.toNat_ofNat]
      exact le_trans (Nat.min_le_right _ _) (Nat.min_le_left _ _)
    · simp only [Int.toNat_ofNat]
      exact le_trans (Nat.min_le_right _ _) (Nat.min_le_right _ _)
  · exact absurd h hr

/-- Bytes stored at the cursor are read back in order when they end before the ring
does. -/
theorem readRing_storeBytes (mem : Ptr → Byte) (buffer size cur : Nat) (data : List Byte)
    (h : cur + data.length ≤ size) :
    readRing (storeBytes mem (buffer + cur) data) buffer size cur data.length = data := by
  unfold readRing
  apply List.ext_getElem
  · simp
  · intro i h1 h2
    have hmod : (cur + i) % size = cur + i := Nat.mod_eq_of_lt (by omega)
    simp only [List.getElem_map, List.getElem_range, hmod, storeBytes]
    have hle : buffer + cur ≤ buffer + (cur + i) := by omega
    have hsub : buffer + (cur + i) - (buffer + cur) = i := by omega
    simp [hle, hsub, h2]

section Pump

variable {κ : Type}

theorem ControlState.commit_publishes (size : Nat) (c : ControlState) (n : Nat)
    (h : ControlState.Inv size c) (hn : n ≤ ringDistance size c.m_current c.m_write) :
    ControlState.available size (ControlState.commit size c n).2
      = ControlState.available size c + n := by
  obtain ⟨cur, wr, rd⟩ := c
  obtain ⟨h1, h2, h3, h4⟩ := h
  simp only at h1 h2 h3 h4 hn
  unfold ControlState.available ControlState.commit
  simp only
  rw [Nat.min_eq_left hn]
  have hlt : n < size := by
    unfold ringDistance at hn
    split_ifs at hn <;> omega
  rw [mod_of_lt_two_mul _ size (by omega)]
  unfold ringDistance at h4 hn ⊢
  split_ifs at h4 hn ⊢ <;> omega

theorem ControlState.consume_releases (size : Nat) (c : ControlState) (n : Nat)
    (h : ControlState.Inv size c) (hn : n ≤ ControlState.available size c) :
    ControlState.available size (ControlState.consume size c n).2
      = ControlState.available size c - n := by
  obtain ⟨cur, wr, rd⟩ := c
  obtain ⟨h1, h2, h3, h4⟩ := h
  simp only at h1 h2 h3 h4
  unfold ControlState.available at hn ⊢
  unfold ControlState.consume
  simp only at hn ⊢
  rw [Nat.min_eq_left hn]
  have hlt : n < size := by
    unfold ringDistance at hn h4
    split_ifs at hn h4 <;> omega
  rw [mod_of_lt_two_mul _ size (by omega)]
  unfold ringDistance at h4 hn ⊢
  split_ifs at h4 hn ⊢ <;> omega

/-- The reference control record, started with its three cursors at one position of the
ring, meets the contract `ServesRing`. -/
theorem refControl_servesRing (size : Nat) (hsz : size < U32) (p : Nat) (hp : p < size) :
    ServesRing (refControl size hsz) (ControlState.available size) ⟨p, p, p⟩ := by
  refine ⟨ControlState.Inv size, fun c => ringDistance size c.m_current c.m_write, ?_, ?_,
    ?_, ?_, ?_, ?_, ?_⟩
  · refine ⟨hp, hp, hp, ?_⟩
    simp only [ringDistance, le_refl, if_true]
    omega
  · simp [ringDistance]
  · simp [ControlState.available, ringDistance]
  · intro c hc
    have := hc.2.2.2
    change ringDistance size c.m_current c.m_write < size
    omega
  · intro c hc
    obtain ⟨hi, ho⟩ := ControlState.reserve_all size hsz c hc
    exact ⟨hi, ho, rfl⟩
  · intro c n hc hn
    obtain ⟨hi, ho⟩ := ControlState.commit_some size c n hc hn
    exact ⟨hi, ho, ControlState.commit_publishes size c n hc hn⟩
  · intro c n hc hn
    obtain ⟨hi, ho⟩ := ControlState.consume_any size c n hc
    exact ⟨hi, ho, ControlState.consume_releases size c n hc hn⟩

/-- The run of producer and consumer under the contract of the control record: it is
defined, after each round nothing published is left unconsumed, the consumer stays at
the write cursor, and what the consumer has seen followed by what is still pending is
unchanged. -/
theorem pump_keeps_order (ctl : RingBufferControl κ) (available : κ → Nat)
    (inv : κ → Prop) (outstanding : κ → Nat)
    (hlt : ∀ c, inv c → outstanding c < ctl.m_size)
    (hres : ∀ c, inv c → inv (ctl.reserve c (U32 - 1)).2
      ∧ outstanding (ctl.reserve c (U32 - 1)).2 = outstanding c + (ctl.reserve c (U32 - 1)).1
      ∧ available (ctl.reserve c (U32 - 1)).2 = available c)
    (hcom : ∀ c n, inv c → n ≤ outstanding c → inv (ctl.commit c n).2
      ∧ outstanding (ctl.commit c n).2 = outstanding c - n
      ∧ available (ctl.commit c n).2 = available c + n)
    (hcon : ∀ c n, inv c → n ≤ available c → inv (ctl.consume c n).2
      ∧ outstanding (ctl.consume c n).2 = outstanding c
      ∧ available (ctl.consume c n).2 = available c - n)
    (replies : List Int) :
    ∀ (rb : RecvRingBuffer κ) (w : World) (k : Consumer),
      inv rb.m_control → outstanding rb.m_control = rb.m_reserved →
      available rb.m_control = 0 →
      rb.m_write < ctl.m_size → k.m_read = rb.m_write →
      ∃ out, pump ctl available replies rb w k = some out
        ∧ out.2.2.seen ++ out.2.1.stream = k.seen ++ w.stream
        ∧ out.2.2.m_read = out.1.m_write ∧ out.1.m_buffer = rb.m_buffer
        ∧ available out.1.m_control = 0 := by
  induction replies with
  | nil =>
    intro rb w k _ _ hav _ hk
    exact ⟨_, rfl, rfl, hk, rfl, hav⟩
  | cons reply replies ih =>
    intro rb w k hinv hout hav hw hk
    have hC : 0 < ctl.m_size := by omega
    have hU := ctl.m_size_lt
    obtain ⟨hinv1, hout1, hav1⟩ := hres rb.m_control hinv
    have hlt1 := hlt _ hinv1
    have hnow : rb.reservedNow ctl = outstanding (ctl.reserve rb.m_control (U32 - 1)).2 := by
      unfold RecvRingBuffer.reservedNow
      rw [← hout, hout1]
      exact addU32_of_lt (by omega)
    have hwrap := wrap_eq_min ctl rb hw (by rw [hnow]; exact hlt1)
    rcases lt_or_le 0 (mockRead reply w (rb.m_buffer + rb.m_write) (rb.wrap ctl)).1
      with hb | hb
    · obtain ⟨hn1, hn2, hstream, hmem⟩ := mockRead_pos reply w _ _ hb
      have hrecv := recv_of_pos ctl (mockRead reply) rb w hC hb
      generalize hgen : mockRead reply w (rb.m_buffer + rb.m_write) (rb.wrap ctl) = res
        at hb hn1 hn2 hstream hmem hrecv
      have hnr : res.1.toNat ≤ rb.reservedNow ctl := by omega
      have hfit : rb.m_write + res.1.toNat ≤ ctl.m_size := by omega
      obtain ⟨hinv2, hout2, hav2⟩ := hcom _ res.1.toNat hinv1 (by rw [← hnow]; exact hnr)
      have havn : available (ctl.commit (ctl.reserve rb.m_control (U32 - 1)).2
          res.1.toNat).2 = res.1.toNat := by
        rw [hav2, hav1, hav, Nat.zero_add]
      obtain ⟨hinv3, hout3, hav3⟩ := hcon _ res.1.toNat hinv2 (by rw [havn])
      have hsum : addU32 rb.m_write res.1.toNat = rb.m_write + res.1.toNat :=
        addU32_of_lt (by omega)
      obtain ⟨out, hrun, hseen, hcur, hbuf, havout⟩ := ih
        { m_control := (ctl.consume (ctl.commit (ctl.reserve rb.m_control (U32 - 1)).2
            res.1.toNat).2 res.1.toNat).2
          m_write := addU32 rb.m_write res.1.toNat % ctl.m_size
          m_reserved := subU32 (rb.reservedNow ctl) res.1.toNat
          m_buffer := rb.m_buffer }
        res.2
        { m_read := (k.m_read + res.1.toNat) % ctl.m_size
          seen := k.seen ++ readRing res.2.mem rb.m_buffer ctl.m_size k.m_read res.1.toNat }
        hinv3
        (by
          simp only
          rw [hout3, hout2, subU32_of_le hnr (by omega), hnow])
        (by
          simp only
          rw [hav3, havn, Nat.sub_self])
        (Nat.mod_lt _ hC)
        (by simp only [hsum, hk])
      refine ⟨out, ?_, ?_, hcur, hbuf, havout⟩
      · rw [pump, hrecv]
        simp only [havn]
        exact hrun
      · rw [hseen]
        simp only [hstream, hmem, hk, List.append_assoc]
        have hlen : (List.take res.1.toNat w.stream).length = res.1.toNat :=
          List.length_take_of_le hn2
        have hread := readRing_storeBytes w.mem rb.m_buffer ctl.m_size rb.m_write
          (List.take res.1.toNat w.stream) (by rw [hlen]; exact hfit)
        rw [hlen] at hread
        rw [hread, List.take_append_drop]
    · have hstream := mockRead_nonpos reply w _ _ hb
      have hrecv := recv_of_nonpos ctl (mockRead reply) rb w hC hb
      generalize hgen : mockRead reply w (rb.m_buffer + rb.m_write) (rb.wrap ctl) = res
        at hb hstream hrecv
      have hav0 : available (ctl.reserve rb.m_control (U32 - 1)).2 = 0 := by
        rw [hav1, hav]
      obtain ⟨hinv3, hout3, hav3⟩ := hcon _ 0 hinv1 (Nat.zero_le _)
      obtain ⟨out, hrun, hseen, hcur, hbuf, havout⟩ := ih
        { m_control := (ctl.consume (ctl.reserve rb.m_control (U32 - 1)).2 0).2
          m_write := rb.m_write
          m_reserved := rb.reservedNow ctl
          m_buffer := rb.m_buffer }
        res.2
        { m_read := (k.m_read + 0) % ctl.m_size
          seen := k.seen ++ readRing res.2.mem rb.m_buffer ctl.m_size k.m_read 0 }
        hinv3
        (by
          simp only
          rw [hout3, hnow])
        (by
          simp only
          rw [hav3, hav0])
        hw
        (by
          simp only [Nat.add_zero]
          rw [hk, Nat.mod_eq_of_lt hw])
      refine ⟨out, ?_, ?_, hcur, hbuf, havout⟩
      · rw [pump, hrecv]
        simp only [hav0]
        exact hrun
      · rw [hseen, hstream]
        simp [readRing]

end Pump

section ByteOrder

variable {κ : Type}

/-- C6 (as amended): ring byte-order preservation over a control record that keeps one
byte free. Take a control record that meets its contract, in which the bytes reserved and
not yet committed always stay below the capacity and commit publishes to the consumer
exactly the bytes passed to it; a receive buffer freshly constructed over it; any byte
sequence pending at a source and any list of replies by which the source fragments it
across successive recv calls, each read returning at most the requested length (and
possibly zero or an error). With a consumer that keeps up with the producer, reading
after each recv the bytes the control record reports as published, from its cursor in
cursor order modulo the capacity: every recv is defined, the consumer stays at the write
cursor, and the bytes the consumer has read, followed by the bytes the source has not
delivered yet, are exactly the original sequence; so the consumer reads exactly the
delivered bytes, in the same order. -/
theorem C6_byte_order (ctl : RingBufferControl κ) (available : κ → Nat) (c0 : κ)
    (buffer : Ptr) (mem : Ptr → Byte) (stream : List Byte) (replies : List Int)
    (hctl : ServesRing ctl available c0) (hcur : ctl.m_current c0 < ctl.m_size) :
    ∃ out, pump ctl available replies (RecvRingBuffer.new ctl c0 buffer) ⟨mem, stream⟩
          ⟨ctl.m_current c0, []⟩ = some out
      ∧ out.2.2.seen ++ out.2.1.stream = stream
      ∧ out.2.2.seen <+: stream
      ∧ out.2.2.m_read = out.1.m_write := by
  obtain ⟨inv, outstanding, hinv0, hout0, hav0, hlt, hres, hcom, hcon⟩ := hctl
  obtain ⟨out, hrun, hseen, hk, _⟩ := pump_keeps_order ctl available inv outstanding hlt hres
    hcom hcon replies (RecvRingBuffer.new ctl c0 buffer) ⟨mem, stream⟩
    ⟨ctl.m_current c0, []⟩ hinv0 hout0 hav0 hcur rfl
  simp only [List.nil_append] at hseen
  exact ⟨out, hrun, hseen, ⟨_, hseen⟩, hk⟩

/-- Witness for C6: capacity 8, all cursors at 6, the source holds `A B C D E F G H` and
is willing to deliver 8 bytes at each of two reads: the consumer reads `A B`, then
`C D E F G H`. -/
theorem C6_byte_order_witness :
    ServesRing control8 (ControlState.available 8) cursorsAt6
      ∧ control8.m_current cursorsAt6 < control8.m_size
      ∧ (∃ out, pump control8 (ControlState.available 8) [8, 8]
            (RecvRingBuffer.new control8 cursorsAt6 4096)
            ⟨blankMem, lettersAH⟩ ⟨control8.m_current cursorsAt6, []⟩ = some out
          ∧ out.2.2.seen ++ out.2.1.stream = lettersAH
          ∧ out.2.2.seen <+: lettersAH
          ∧ out.2.2.m_read = out.1.m_write)
      ∧ (pump control8 (ControlState.available 8) [8]
            (RecvRingBuffer.new control8 cursorsAt6 4096)
            ⟨blankMem, lettersAH⟩ ⟨6, []⟩).map (fun o => o.2.2.seen) = some [65, 66]
      ∧ (pump control8 (ControlState.available 8) [8, 8]
            (RecvRingBuffer.new control8 cursorsAt6 4096)
            ⟨blankMem, lettersAH⟩ ⟨6, []⟩).map (fun o => o.2.2.seen) = some lettersAH :=
  ⟨refControl_servesRing 8 (by decide) 6 (by decide), by decide,
    C6_byte_order control8 (ControlState.available 8) cursorsAt6 4096 blankMem lettersAH
      [8, 8] (refControl_servesRing 8 (by decide) 6 (by decide)) (by decide),
    by decide, by decide⟩

/-- Counterexample to C6 as stated: a control record of capacity 8 that lets the whole
ring be reserved, with its producer cursor at 6 and nothing reserved or published; a
fresh receive buffer at address 4096 over it; a source holding `A B C D E F G H` that
delivers what it is asked for. The one recv reserves 8 bytes, asks for 8 bytes at
position 6, returns 8 and commits 8: the bytes land at positions 6..13. The consumer,
reading the 8 published bytes from cursor 6 modulo the capacity, reads `A B` and six
bytes that were never written, not the sequence delivered. -/
theorem C6_counterexample :
    (RecvRingBuffer.new whole8 ⟨6, 0, 0⟩ 4096).m_write = 6
      ∧ ((RecvRingBuffer.new whole8 ⟨6, 0, 0⟩ 4096).recv whole8 (spy (mockRead 8))
            (⟨blankMem, lettersAH⟩, [])).map (fun o => (o.1, o.2.2.2))
          = some (8, [(4096 + 6, 8)])
      ∧ (pump whole8 CountState.published [8] (RecvRingBuffer.new whole8 ⟨6, 0, 0⟩ 4096)
            ⟨blankMem, lettersAH⟩ ⟨6, []⟩).map
            (fun o => (o.2.2.seen, o.2.1.stream, readMem o.2.1.mem 4096 16))
          = some ([65, 66, 0, 0, 0, 0, 0, 0], [],
              [0, 0, 0, 0, 0, 0, 65, 66, 67, 68, 69, 70, 71, 72, 0, 0])
      ∧ ¬ (∃ out, pump whole8 CountState.published [8]
            (RecvRingBuffer.new whole8 ⟨6, 0, 0⟩ 4096) ⟨blankMem, lettersAH⟩ ⟨6, []⟩
              = some out
          ∧ out.2.2.seen ++ out.2.1.stream = lettersAH) := by
  refine ⟨by decide, by decide, by decide, ?_⟩
  rintro ⟨out, hrun, hseen⟩
  have h : (pump whole8 CountState.published [8] (RecvRingBuffer.new whole8 ⟨6, 0, 0⟩ 4096)
      ⟨blankMem, lettersAH⟩ ⟨6, []⟩).map (fun o => o.2.2.seen ++ o.2.1.stream)
      = some [65, 66, 0, 0, 0, 0, 0, 0] := by decide
  rw [hrun] at h
  simp only [Option.map_some', Option.some.injEq] at h
  rw [hseen] at h
  revert h
  decide

end ByteOrder

/-! ### More on the queue -/

/-- C11: peek returns the head without removing it. For every queue state, peek leaves
the queue as it was, and on a non-empty queue the value peek returns is the head of the
list and exactly the value the next pop returns. -/
theorem C11_peek_keeps_head (q : MessageQueue) :
    q.peek.2 = q
      ∧ (q.m_queue ≠ [] →
          q.m_queue.head? = some q.peek.1 ∧ q.peek.1 = q.pop.1
            ∧ q.peek.2.pop.1 = q.peek.1) := by
  obtain ⟨xs⟩ := q
  cases xs with
  | nil => simp [MessageQueue.peek]
  | cons x rest => simp [MessageQueue.peek, MessageQueue.pop]

/-- Witness for C11: the queue holding 11, 12: peek returns 11 and so does the pop after
it. -/
theorem C11_peek_keeps_head_witness :
    ((MessageQueue.new.push 11).push 12).m_queue ≠ []
      ∧ ((MessageQueue.new.push 11).push 12).peek.1 = ((MessageQueue.new.push 11).push 12).pop.1
      ∧ ((MessageQueue.new.push 11).push 12).peek = (11, (MessageQueue.new.push 11).push 12) :=
  ⟨by decide,
    ((C11_peek_keeps_head ((MessageQueue.new.push 11).push 12)).2 (by decide)).2.1,
    by decide⟩

/-- Every message in the queue after a run was in the queue before or was pushed. -/
theorem runQueue_mem (ops : List QueueOp) :
    ∀ (q : MessageQueue) (m : Ptr), m ∈ (runQueue q ops).1.m_queue →
      m ∈ q.m_queue ∨ m ∈ pushedBy ops := by
  induction ops with
  | nil => intro q m h; exact Or.inl h
  | cons op ops ih =>
    intro q m h
    cases op with
    | push msg =>
      rcases ih (q.push msg) m h with h1 | h1
      · simp only [MessageQueue.push, List.mem_append, List.mem_singleton] at h1
        rcases h1 with h1 | h1
        · exact Or.inl h1
        · exact Or.inr (by simp [pushedBy, h1])
      · exact Or.inr (by simp [pushedBy, h1])
    | pop =>
      obtain ⟨xs⟩ := q
      cases xs with
      | nil =>
        rcases ih ⟨[]⟩ m (by simpa [runQueue, MessageQueue.pop] using h) with h1 | h1
        · exact Or.inl h1
        · exact Or.inr (by simpa [pushedBy] using h1)
      | cons x rest =>
        rcases ih ⟨rest⟩ m (by simpa [runQueue, MessageQueue.pop] using h) with h1 | h1
        · exact Or.inl (List.mem_cons_of_mem _ h1)
        · exact Or.inr (by simpa [pushedBy] using h1)

/-- C18: null is an unambiguous "empty" signal only for non-null messages. For every
queue reached from the empty queue by pushes of non-null messages and pops, pop returns
null if and only if the queue is empty, and so does peek. And the queue reached by
pushing a null message is not empty, yet pop returns null on it, and its length goes
down by one. -/
theorem C18_null_means_empty (ops : List QueueOp) (h : ∀ m ∈ pushedBy ops, m ≠ NULL) :
    ((runQueue MessageQueue.new ops).1.pop.1 = NULL
        ↔ (runQueue MessageQueue.new ops).1.m_queue = [])
      ∧ ((runQueue MessageQueue.new ops).1.peek.1 = NULL
        ↔ (runQueue MessageQueue.new ops).1.m_queue = [])
      ∧ (MessageQueue.new.push NULL).m_queue ≠ []
      ∧ (MessageQueue.new.push NULL).pop.1 = NULL
      ∧ (MessageQueue.new.push NULL).pop.2.m_queue.length + 1
          = (MessageQueue.new.push NULL).m_queue.length := by
  have hmem : ∀ m ∈ (runQueue MessageQueue.new ops).1.m_queue, m ≠ NULL := by
    intro m hm
    rcases runQueue_mem ops MessageQueue.new m hm with h1 | h1
    · simp [MessageQueue.new] at h1
    · exact h m h1
  generalize (runQueue MessageQueue.new ops).1 = q at hmem
  obtain ⟨xs⟩ := q
  refine ⟨?_, ?_, by decide, by decide, by decide⟩
  · cases xs with
    | nil => simp [MessageQueue.pop]
    | cons x rest =>
      have hx : x ≠ NULL := hmem x (List.mem_cons_self _ _)
      simp [MessageQueue.pop, hx]
  · cases xs with
    | nil => simp [MessageQueue.peek]
    | cons x rest =>
      have hx : x ≠ NULL := hmem x (List.mem_cons_self _ _)
      simp [MessageQueue.peek, hx]

/-- Witness for C18: after push 11, push 12, pop, push 13, pop, pop the queue is empty
and pop returns null; after only the first three calls it is not and pop returns 12. -/
theorem C18_null_means_empty_witness :
    pushedBy sampleOps = [11, 12, 13]
      ∧ ((runQueue MessageQueue.new sampleOps).1.pop.1 = NULL
          ↔ (runQueue MessageQueue.new sampleOps).1.m_queue = [])
      ∧ (runQueue MessageQueue.new sampleOps).1.m_queue = []
      ∧ (runQueue MessageQueue.new (sampleOps.take 3)).1.pop.1 = 12 :=
  ⟨by decide, (C18_null_means_empty sampleOps (by decide)).1, by decide, by decide⟩

section RecvResult

variable {κ σ : Type}

/-- C12: recv returns the source's result verbatim. For every ring state, whenever recv
returns, it returns exactly the value the source read returned; on every ring of
positive capacity it does return; so for every value r, positive, zero or negative, a
source that answers r makes recv return r. -/
theorem C12_recv_returns_result (ctl : RingBufferControl κ)
    (read : σ → Ptr → Nat → Int × σ)
    (rb : RecvRingBuffer κ) (s : σ) :
    (∀ out, rb.recv ctl read s = some out →
        out.1 = (read s (rb.m_buffer + rb.m_write) (rb.wrap ctl)).1)
      ∧ (0 < ctl.m_size → ∃ out, rb.recv ctl read s = some out
          ∧ out.1 = (read s (rb.m_buffer + rb.m_write) (rb.wrap ctl)).1)
      ∧ (0 < ctl.m_size → ∀ r : Int,
          (rb.recv ctl (answer r) ()).map (fun o => o.1) = some r) := by
  have hret : ∀ (τ : Type) (rd : τ → Ptr → Nat → Int × τ) (t : τ), 0 < ctl.m_size →
      ∃ out, rb.recv ctl rd t = some out
        ∧ out.1 = (rd t (rb.m_buffer + rb.m_write) (rb.wrap ctl)).1 := by
    intro τ rd t hC
    rcases lt_or_le 0 (rd t (rb.m_buffer + rb.m_write) (rb.wrap ctl)).1 with hb | hb
    · exact ⟨_, recv_of_pos ctl rd rb t hC hb, rfl⟩
    · exact ⟨_, recv_of_nonpos ctl rd rb t hC hb, rfl⟩
  refine ⟨?_, hret σ read s, ?_⟩
  · intro out hout
    rcases Nat.eq_zero_or_pos ctl.m_size with h0 | hC
    · simp [RecvRingBuffer.recv, h0] at hout
    · obtain ⟨out', h1, h2⟩ := hret σ read s hC
      rw [h1] at hout
      cases hout
      exact h2
  · intro hC r
    obtain ⟨out, h1, h2⟩ := hret Unit (answer r) () hC
    rw [h1]
    simpa [answer] using h2

/-- Witness for C12: a fresh ring of capacity 8 whose source answers -1, 0 and 3. -/
theorem C12_recv_returns_result_witness :
    0 < control8.m_size
      ∧ (fresh8.recv control8 (answer (-1)) ()).map (fun o => o.1) = some (-1)
      ∧ (fresh8.recv control8 (answer 0) ()).map (fun o => o.1) = some 0
      ∧ (fresh8.recv control8 (answer 3) ()).map (fun o => o.1) = some 3 :=
  ⟨by decide,
    (C12_recv_returns_result control8 (answer 0) fresh8 ()).2.2 (by decide) (-1),
    (C12_recv_returns_result control8 (answer 0) fresh8 ()).2.2 (by decide) 0,
    (C12_recv_returns_result control8 (answer 0) fresh8 ()).2.2 (by decide) 3⟩

/-- C13: TLS parity. The socket overload and the TLS-session overload of recv are the
same state transition: for every control record, every initial ring state and every
source behaviour, used as the socket read by the one and as the TLS read by the other,
the two overloads give the same outcome: the same returned value, the same final write
cursor, reserved count, control record and buffer pointer, and the same source
afterwards (both undefined on a ring of capacity 0). They make the same requests to the
source, the same length at the same buffer position, and the same calls on the control
record. -/
theorem C13_tls_parity (ctl : RingBufferControl κ) (read : σ → Ptr → Nat → Int × σ)
    (rb : RecvRingBuffer κ) (s : σ) :
    rb.recvSSL ctl read s = rb.recv ctl read s
      ∧ (rb.recvSSL ctl (spy read) (s, [])).map (fun o => o.2.2.2)
          = (rb.recv ctl (spy read) (s, [])).map (fun o => o.2.2.2)
      ∧ (rb.withTrace.recvSSL ctl.traced read s).map (fun o => o.2.1.m_control.2)
          = (rb.withTrace.recv ctl.traced read s).map (fun o => o.2.1.m_control.2)
      ∧ (0 < ctl.m_size →
          (rb.recvSSL ctl (spy read) (s, [])).map (fun o => o.2.2.2)
            = some [(rb.m_buffer + rb.m_write, rb.wrap ctl)]) := by
  have hsame : ∀ (ι τ : Type) (c : RingBufferControl ι) (rd : τ → Ptr → Nat → Int × τ)
      (b : RecvRingBuffer ι) (t : τ), b.recvSSL c rd t = b.recv c rd t := by
    intro ι τ c rd b t
    unfold RecvRingBuffer.recvSSL RecvRingBuffer.recv
    rfl
  refine ⟨hsame _ _ _ _ _ _, by rw [hsame], by rw [hsame], ?_⟩
  intro hC
  rw [hsame]
  obtain ⟨out, h1, h2, _⟩ := recv_spy_log ctl read rb s hC
  rw [h1]
  simp [h2]

/-- Witness for C13: on a fresh ring of capacity 8 a TLS read that answers 3 is asked
for 7 bytes at the buffer start and moves the ring as the socket read does. -/
theorem C13_tls_parity_witness :
    0 < control8.m_size
      ∧ (fresh8.recvSSL control8 (spy (answer 3)) ((), [])).map (fun o => o.2.2.2)
          = some [(fresh8.m_buffer + fresh8.m_write, fresh8.wrap control8)]
      ∧ fresh8.recvSSL control8 (answer 3) ()
          = some (3, { m_control := ⟨3, 7, 0⟩, m_write := 3, m_reserved := 4,
                       m_buffer := 4096 }, ()) :=
  ⟨by decide, (C13_tls_parity control8 (answer 3) fresh8 ()).2.2.2 (by decide), by decide⟩

/-- C16: closed form of the contiguous span. For every RecvRingBuffer state with write
cursor below the capacity and local reserved count, after the reservation step, strictly
below the capacity, the length recv asks the source for, in its one request at the write
cursor, equals min(reserved, capacity - write). -/
theorem C16_span_closed_form (ctl : RingBufferControl κ) (rb : RecvRingBuffer κ)
    (hw : rb.m_write < ctl.m_size) (hr : rb.reservedNow ctl < ctl.m_size) :
    rb.wrap ctl = min (rb.reservedNow ctl) (ctl.m_size - rb.m_write)
      ∧ ∀ (read : σ → Ptr → Nat → Int × σ) (s : σ),
          (rb.recv ctl (spy read) (s, [])).map (fun o => o.2.2.2)
            = some [(rb.m_buffer + rb.m_write,
                min (rb.reservedNow ctl) (ctl.m_size - rb.m_write))] := by
  have hC : 0 < ctl.m_size := by omega
  have hmin := wrap_eq_min ctl rb hw hr
  refine ⟨hmin, ?_⟩
  intro read s
  obtain ⟨out, h1, h2, _⟩ := recv_spy_log ctl read rb s hC
  rw [h1, ← hmin]
  simp [h2]

/-- Witness for C16: capacity 8, all cursors at 6: 7 bytes are reserved, 2 remain before
the end of the buffer, and 2 are asked for. -/
theorem C16_span_closed_form_witness :
    ring8At6.m_write < control8.m_size ∧ ring8At6.reservedNow control8 < control8.m_size
      ∧ ring8At6.wrap control8
          = min (ring8At6.reservedNow control8) (control8.m_size - ring8At6.m_write)
      ∧ ring8At6.reservedNow control8 = 7 ∧ ring8At6.wrap control8 = 2 :=
  ⟨by decide, by decide,
    (@C16_span_closed_form ControlState Unit control8 ring8At6 (by decide) (by decide)).1,
    by decide, by decide⟩

end RecvResult

section PoolReuse

variable {Ty : Type}

/-- C15: pool addressing scenario S1 and slot reuse. In a pool of max = 4, creating 10,
20, 30 gives the handles 0, 1, 2; after destroying the object at handle 1 and creating
40, the create has returned the slot of handle 1, getFromIndex of handle 1 leads to the
new object carrying 40, and getFromIndex of handles 0 and 2 still leads to the objects
carrying 10 and 30. In general, in every state of a pool built by the constructor over a
granted block, the create that immediately follows destroy(p) succeeds, returns the slot
whose index is getIndex(p), and constructs the new object there. -/
theorem C15_slot_reuse (minElementSize sizeofTy : Nat) (g_realloc : Ptr → Nat → Ptr)
    (max : Nat) (ops : List (PoolOp Ty)) (p : Ptr) (v : Ty)
    (hsize : 0 < sizeofTy) (hmax : max < U16)
    (hblock : g_realloc NULL ((max * FreeList.slotSize minElementSize sizeofTy) % U32) ≠ NULL) :
    ((createAll (intPool 4) [10, 20, 30]).1.map poolS1.getIndex = [0, 1, 2]
        ∧ poolS1Reuse.1 = poolS1.getFromIndex 1
        ∧ poolS1Reuse.2.objects (poolS1Reuse.2.getFromIndex 1) = some 40
        ∧ poolS1Reuse.2.objects (poolS1Reuse.2.getFromIndex 0) = some 10
        ∧ poolS1Reuse.2.objects (poolS1Reuse.2.getFromIndex 2) = some 30)
      ∧ (((runPool (FreeList.new minElementSize sizeofTy g_realloc max) ops).destroy p).create
            v).1
          = (runPool (FreeList.new minElementSize sizeofTy g_realloc max) ops).getFromIndex
              ((runPool (FreeList.new minElementSize sizeofTy g_realloc max) ops).getIndex p)
      ∧ (((runPool (FreeList.new minElementSize sizeofTy g_realloc max) ops).destroy p).create
            v).1 ≠ NULL
      ∧ (((runPool (FreeList.new minElementSize sizeofTy g_realloc max) ops).destroy p).create
            v).2.getIndex
          (((runPool (FreeList.new minElementSize sizeofTy g_realloc max) ops).destroy p).create
            v).1
          = (runPool (FreeList.new minElementSize sizeofTy g_realloc max) ops).getIndex p
      ∧ (((runPool (FreeList.new minElementSize sizeofTy g_realloc max) ops).destroy p).create
            v).2.objects
          (((runPool (FreeList.new minElementSize sizeofTy g_realloc max) ops).destroy p).create
            v).1 = some v := by
  refine ⟨by decide, ?_⟩
  have hpos := slotSize_pos minElementSize sizeofTy hsize
  have hinv := PoolInv_runPool ops _ (@PoolInv_new Ty minElementSize sizeofTy g_realloc max hmax)
  generalize runPool (FreeList.new minElementSize sizeofTy g_realloc max) ops = fl at hinv
  obtain ⟨hb, hs, _⟩ := hinv
  obtain ⟨blk, ⟨d, num, es, free⟩, objs⟩ := fl
  simp only at hb hs
  have hd : d ≠ NULL := by rw [hb]; exact hblock
  have hes : 0 < es := by rw [hs]; exact hpos
  have hne : d + BlockAlloc.getIndex ⟨d, num, es, free⟩ p * es ≠ NULL :=
    Nat.ne_of_gt (Nat.add_pos_left (Nat.pos_of_ne_zero hd) _)
  have hi : BlockAlloc.getIndex ⟨d, num, es, free⟩ p < U16 := Nat.mod_lt _ (by decide)
  have hround := BlockAlloc.getIndex_getFromIndex ⟨d, num, es, free⟩ _ hes hi
  simp only [BlockAlloc.getFromIndex] at hround
  refine ⟨?_, ?_, ?_, ?_⟩
  · simp [FreeList.create, FreeList.destroy, FreeList.getFromIndex, FreeList.getIndex,
      BlockAlloc.alloc, BlockAlloc.free, BlockAlloc.getFromIndex, hne]
  · simp [FreeList.create, FreeList.destroy, BlockAlloc.alloc, BlockAlloc.free,
      BlockAlloc.getFromIndex, hne]
  · simp only [FreeList.create, FreeList.destroy, FreeList.getIndex, BlockAlloc.alloc,
      BlockAlloc.free, BlockAlloc.getFromIndex, hne, if_false]
    exact hround
  · simp [FreeList.create, FreeList.destroy, BlockAlloc.alloc, BlockAlloc.free,
      BlockAlloc.getFromIndex, hne]

/-- Witness for C15: in the pool of scenario S1, destroying the object at address 1004
and creating 40 returns address 1004 again. -/
theorem C15_slot_reuse_witness :
    (0 < 4) ∧ 4 < U16 ∧ grantAt 1000 NULL ((4 * FreeList.slotSize 2 4) % U32) ≠ NULL
      ∧ (((runPool (FreeList.new 2 4 (grantAt 1000) 4)
            [PoolOp.create 10, PoolOp.create 20, PoolOp.create 30]).destroy 1004).create
            (40 : Int)).1
          = (runPool (FreeList.new 2 4 (grantAt 1000) 4)
              [PoolOp.create 10, PoolOp.create 20, PoolOp.create 30]).getFromIndex
              ((runPool (FreeList.new 2 4 (grantAt 1000) 4)
                [PoolOp.create 10, PoolOp.create 20, PoolOp.create 30]).getIndex 1004)
      ∧ (((runPool (FreeList.new 2 4 (grantAt 1000) 4)
            [PoolOp.create 10, PoolOp.create 20, PoolOp.create 30]).destroy 1004).create
            (40 : Int)).1 = 1004 :=
  ⟨by decide, by decide, by decide,
    (C15_slot_reuse 2 4 (grantAt 1000) 4
      [PoolOp.create 10, PoolOp.create 20, PoolOp.create 30] 1004 (40 : Int)
      (by decide) (by decide) (by decide)).2.1,
    by decide⟩

end PoolReuse

section WrapScenario

variable {κ : Type}

/-- The bytes stored by `storeBytes` are the only ones that change. -/
theorem storeBytes_two (mem : Ptr → Byte) (b : Nat) (x y : Byte) (a : Nat) :
    storeBytes mem b [x, y] a = if a = b then x else if a = b + 1 then y else mem a := by
  unfold storeBytes
  by_cases h0 : a = b
  · subst h0
    simp
  · by_cases h1 : a = b + 1
    · subst h1
      simp
    · by_cases hle : b ≤ a
      · obtain ⟨k, rfl⟩ : ∃ k, a = b + (k + 2) := ⟨a - b - 2, by omega⟩
        simp [h0, h1]
      · simp [hle, h0, h1]

/-- C14 (as amended): wrap-around scenario S2. With capacity 8, the write cursor at 6
and 7 bytes reserved, one short of the whole ring (positions 6..7 then 0..4), a first
recv against a source holding the 8 bytes A B C D E F G H and willing to deliver them
all returns 2, writes exactly the 2 bytes A B, into positions 6..7, makes the calls
reserve(-1) and commit(2) on the control record and leaves the write cursor at 0, with 5
bytes still reserved. A second recv, with the write cursor at 0 and r bytes reserved by
then (0 < r <= 8), writes the first min(r, 6) of the bytes C D E F G H into the positions
from 0 on and commits that many: up to 6 bytes. -/
theorem C14_wrap_scenario (ctl : RingBufferControl κ) (rb : RecvRingBuffer κ)
    (mem : Ptr → Byte) (hC : ctl.m_size = 8) (hw : rb.m_write = 6)
    (hr : rb.reservedNow ctl = 7) :
    rb.recv ctl (mockRead 8) ⟨mem, lettersAH⟩ = some
        (2,
          { m_control := (ctl.commit (ctl.reserve rb.m_control (U32 - 1)).2 2).2
            m_write := 0
            m_reserved := 5
            m_buffer := rb.m_buffer },
          ⟨storeBytes mem (rb.m_buffer + 6) [65, 66], [67, 68, 69, 70, 71, 72]⟩)
      ∧ (∀ a, storeBytes mem (rb.m_buffer + 6) [65, 66] a
          = if a = rb.m_buffer + 6 then 65 else if a = rb.m_buffer + 6 + 1 then 66 else mem a)
      ∧ (rb.withTrace.recv ctl.traced (mockRead 8) ⟨mem, lettersAH⟩).map
            (fun o => o.2.1.m_control.2)
          = some [ControlCall.reserve (U32 - 1), ControlCall.commit 2]
      ∧ ∀ (rb2 : RecvRingBuffer κ) (mem2 : Ptr → Byte), rb2.m_write = 0 →
          0 < rb2.reservedNow ctl → rb2.reservedNow ctl ≤ 8 →
          rb2.recv ctl (mockRead 8) ⟨mem2, [67, 68, 69, 70, 71, 72]⟩ = some
            (((min (rb2.reservedNow ctl) 6 : Nat) : Int),
              { m_control := (ctl.commit (ctl.reserve rb2.m_control (U32 - 1)).2
                  (min (rb2.reservedNow ctl) 6)).2
                m_write := min (rb2.reservedNow ctl) 6
                m_reserved := rb2.reservedNow ctl - min (rb2.reservedNow ctl) 6
                m_buffer := rb2.m_buffer },
              ⟨storeBytes mem2 rb2.m_buffer
                  (List.take (min (rb2.reservedNow ctl) 6) [67, 68, 69, 70, 71, 72]),
                List.drop (min (rb2.reservedNow ctl) 6) [67, 68, 69, 70, 71, 72]⟩) := by
  have hpos8 : 0 < ctl.m_size := by omega
  have hwrap : rb.wrap ctl = 2 := by
    simp [RecvRingBuffer.wrap, hr, hw, hC, addU32, subU32, U32]
  have hread : mockRead 8 ⟨mem, lettersAH⟩ (rb.m_buffer + rb.m_write) (rb.wrap ctl)
      = (2, ⟨storeBytes mem (rb.m_buffer + 6) [65, 66], [67, 68, 69, 70, 71, 72]⟩) := by
    rw [hwrap, hw]
    simp [mockRead, lettersAH]
  have hb : 0 < (mockRead 8 ⟨mem, lettersAH⟩ (rb.m_buffer + rb.m_write) (rb.wrap ctl)).1 := by
    rw [hread]
    show (0 : Int) < 2
    decide
  have h2 : (2 : Int).toNat = 2 := rfl
  refine ⟨?_, storeBytes_two mem _ 65 66, ?_, ?_⟩
  · have h1 := recv_of_pos ctl (mockRead 8) rb ⟨mem, lettersAH⟩ hpos8 hb
    rw [h1, hread, hr, hw, hC]
    have ha : addU32 6 2 % 8 = 0 := by decide
    have hs : subU32 7 2 = 5 := by decide
    simp only [h2, ha, hs]
  · have h1 := recv_of_pos ctl.traced (mockRead 8) rb.withTrace ⟨mem, lettersAH⟩ hpos8 hb
    rw [h1]
    change some ([] ++ [ControlCall.reserve (U32 - 1)] ++ [ControlCall.commit
      (mockRead 8 ⟨mem, lettersAH⟩ (rb.m_buffer + rb.m_write) (rb.wrap ctl)).1.toNat]) = _
    rw [hread]
    rfl
  · intro rb2 mem2 hw2 hr2 hr8
    have hwrap2 : rb2.wrap ctl = rb2.reservedNow ctl := by
      unfold RecvRingBuffer.wrap
      rw [hw2, if_neg (Nat.not_lt_zero _)]
    have hmin : min 8 (min (rb2.reservedNow ctl) 6) = min (rb2.reservedNow ctl) 6 := by
      omega
    have hread2 : mockRead 8 ⟨mem2, [67, 68, 69, 70, 71, 72]⟩ (rb2.m_buffer + rb2.m_write)
        (rb2.wrap ctl)
        = (((min (rb2.reservedNow ctl) 6 : Nat) : Int),
            ⟨storeBytes mem2 rb2.m_buffer
                (List.take (min (rb2.reservedNow ctl) 6) [67, 68, 69, 70, 71, 72]),
              List.drop (min (rb2.reservedNow ctl) 6) [67, 68, 69, 70, 71, 72]⟩) := by
      rw [hwrap2, hw2]
      have h8 : (8 : Int).toNat = 8 := rfl
      have hlen : ([67, 68, 69, 70, 71, 72] : List Byte).length = 6 := rfl
      simp only [mockRead, Nat.add_zero]
      rw [if_pos (by decide), h8, hlen, hmin]
    have hnpos : (0 : Int) < ((min (rb2.reservedNow ctl) 6 : Nat) : Int) := by
      have : 0 < min (rb2.reservedNow ctl) 6 := by omega
      exact_mod_cast this
    have h3 := recv_of_pos ctl (mockRead 8) rb2 ⟨mem2, [67, 68, 69, 70, 71, 72]⟩ hpos8
      (by rw [hread2]; exact hnpos)
    rw [h3, hread2, hw2, hC]
    have hn6 : min (rb2.reservedNow ctl) 6 ≤ 6 := Nat.min_le_right _ _
    have hnr : min (rb2.reservedNow ctl) 6 ≤ rb2.reservedNow ctl := Nat.min_le_left _ _
    simp only [Int.toNat_ofNat]
    rw [addU32_of_lt (by unfold U32; omega), subU32_of_le hnr (by unfold U32; omega),
      Nat.zero_add, Nat.mod_eq_of_lt (by omega)]

/-- Witness for C14: the reference control record of capacity 8 with all cursors at 6
reserves 7 bytes; the first recv writes A B into positions 6..7 of the buffer at 4096 and
nothing else, and returns 2. The second recv writes C D E F G when the consumer has not
consumed yet (5 bytes are reserved), and C D E F G H when it has consumed the 2 bytes (7
bytes are reserved). -/
theorem C14_wrap_scenario_witness :
    control8.m_size = 8 ∧ ring8At6.m_write = 6 ∧ ring8At6.reservedNow control8 = 7
      ∧ (ring8At6.withTrace.recv control8.traced (mockRead 8) ⟨blankMem, lettersAH⟩).map
            (fun o => o.2.1.m_control.2)
          = some [ControlCall.reserve (U32 - 1), ControlCall.commit 2]
      ∧ (ring8At6.recv control8 (mockRead 8) ⟨blankMem, lettersAH⟩).map
            (fun o => (o.1, o.2.1, readMem o.2.2.mem 4096 10, o.2.2.stream))
          = some (2, { m_control := ⟨0, 5, 6⟩, m_write := 0, m_reserved := 5,
                       m_buffer := 4096 },
              [0, 0, 0, 0, 0, 0, 65, 66, 0, 0], [67, 68, 69, 70, 71, 72])
      ∧ (RecvRingBuffer.recv control8 (mockRead 8)
            { m_control := ⟨0, 5, 6⟩, m_write := 0, m_reserved := 5, m_buffer := 4096 }
            ⟨blankMem, [67, 68, 69, 70, 71, 72]⟩).map
            (fun o => (o.1, o.2.1, readMem o.2.2.mem 4096 10, o.2.2.stream))
          = some (5, { m_control := ⟨5, 5, 6⟩, m_write := 5, m_reserved := 0,
                       m_buffer := 4096 },
              [67, 68, 69, 70, 71, 0, 0, 0, 0, 0], [72])
      ∧ (RecvRingBuffer.recv control8 (mockRead 8)
            { m_control := (control8.consume ⟨0, 5, 6⟩ 2).2, m_write := 0, m_reserved := 5,
              m_buffer := 4096 }
            ⟨blankMem, [67, 68, 69, 70, 71, 72]⟩).map
            (fun o => (o.1, o.2.1, readMem o.2.2.mem 4096 10, o.2.2.stream))
          = some (6, { m_control := ⟨6, 7, 0⟩, m_write := 6, m_reserved := 1,
                       m_buffer := 4096 },
              [67, 68, 69, 70, 71, 72, 0, 0, 0, 0], []) :=
  ⟨by decide, by decide, by decide,
    (C14_wrap_scenario control8 ring8At6 blankMem (by decide) (by decide) (by decide)).2.2.1,
    by decide, by decide, by decide⟩

/-- Counterexample to C14 as stated: capacity 8, write cursor 6 and all 8 bytes reserved.
The first recv asks the source for 8 bytes at position 6 and returns 8, not 2: the bytes
A B C D E F G H land at positions 6..13, six of them beyond the end of the buffer, 8 is
passed to commit and the write cursor is back at 6, not at 0. -/
theorem C14_counterexample :
    control8.m_size = 8 ∧ full8.m_write = 6 ∧ full8.reservedNow control8 = 8
      ∧ (full8.recv control8 (spy (mockRead 8)) (⟨blankMem, lettersAH⟩, [])).map
            (fun o => o.2.2.2) = some [(4096 + 6, 8)]
      ∧ (full8.recv control8 (mockRead 8) ⟨blankMem, lettersAH⟩).map
            (fun o => (o.1, o.2.1.m_write, o.2.1.m_reserved, readMem o.2.2.mem 4096 16,
              o.2.2.stream))
          = some (8, 6, 0, [0, 0, 0, 0, 0, 0, 65, 66, 67, 68, 69, 70, 71, 72, 0, 0], [])
      ∧ (full8.withTrace.recv control8.traced (mockRead 8) ⟨blankMem, lettersAH⟩).map
            (fun o => o.2.1.m_control.2)
          = some [ControlCall.reserve (U32 - 1), ControlCall.commit 8]
      ∧ ¬ ((full8.recv control8 (mockRead 8) ⟨blankMem, lettersAH⟩).map
            (fun o => (o.1, o.2.1.m_write)) = some (2, 0)) := by
  decide

end WrapScenario

/-! ### Accounting of reservations -/

section Accounting

variable {κ σ : Type}

/-- The arithmetic of one accounting step, modulo 2^32. -/
theorem account_step (G Cm r g n : Nat) (hle : Cm ≤ G) (hres : r = (G - Cm) % U32)
    (hn : n ≤ addU32 r g) :
    Cm + n ≤ G + g ∧ addU32 r g - n = (G + g - (Cm + n)) % U32 := by
  unfold addU32 U32 at *
  omega

/-- One `recv` over a metered control record, for a source that returns no more than it
is asked for: the call is defined, and with `n` the number of bytes it commits (0 when
the read returns no positive count), `n` is at most the reserved count after the
reservation step, the new reserved count is that count less `n`, and the meter has the
grant and `n` added. -/
theorem recv_metered (ctl : RingBufferControl κ) (read : σ → Ptr → Nat → Int × σ)
    (rb : RecvRingBuffer (κ × Meter)) (s : σ) (hw : rb.m_write < ctl.m_size)
    (hsrc : ∀ t to_ len, (read t to_ len).1 ≤ (len : Int)) :
    ∃ out n, rb.recv ctl.metered read s = some out
      ∧ n ≤ addU32 rb.m_reserved (ctl.reserve rb.m_control.1 (U32 - 1)).1
      ∧ out.2.1.m_write < ctl.m_size
      ∧ out.2.1.m_reserved = addU32 rb.m_reserved (ctl.reserve rb.m_control.1 (U32 - 1)).1 - n
      ∧ out.2.1.m_control.2
          = ⟨rb.m_control.2.granted + (ctl.reserve rb.m_control.1 (U32 - 1)).1,
              rb.m_control.2.committed + n⟩
      ∧ (n = 0 → out.2.1.m_control.1 = (ctl.reserve rb.m_control.1 (U32 - 1)).2)
      ∧ (0 < n → out.2.1.m_control.1
          = (ctl.commit (ctl.reserve rb.m_control.1 (U32 - 1)).2 n).2) := by
  have hC : 0 < ctl.metered.m_size := lt_of_le_of_lt (Nat.zero_le _) hw
  have hle : rb.wrap ctl.metered ≤ rb.reservedNow ctl.metered :=
    wrap_le_reservedNow ctl.metered rb hw
  have hnow : rb.reservedNow ctl.metered
      = addU32 rb.m_reserved (ctl.reserve rb.m_control.1 (U32 - 1)).1 := rfl
  rcases lt_or_le 0 (read s (rb.m_buffer + rb.m_write) (rb.wrap ctl.metered)).1 with hb | hb
  · have h1 := recv_of_pos ctl.metered read rb s hC hb
    have hn : (read s (rb.m_buffer + rb.m_write) (rb.wrap ctl.metered)).1.toNat
        ≤ rb.wrap ctl.metered := Int.toNat_le.mpr (hsrc _ _ _)
    have hnpos : 0 < (read s (rb.m_buffer + rb.m_write) (rb.wrap ctl.metered)).1.toNat :=
      Int.lt_toNat.mpr hb
    refine ⟨_, (read s (rb.m_buffer + rb.m_write) (rb.wrap ctl.metered)).1.toNat, h1, ?_, ?_,
      ?_, rfl, ?_, fun _ => rfl⟩
    · rw [← hnow]; exact le_trans hn hle
    · exact Nat.mod_lt _ hC
    · rw [← hnow]
      exact subU32_of_le (le_trans hn hle) (by rw [hnow]; exact addU32_lt _ _)
    · intro h0
      omega
  · have h1 := recv_of_nonpos ctl.metered read rb s hC hb
    exact ⟨_, 0, h1, Nat.zero_le _, hw, rfl, rfl, fun _ => rfl, fun h => absurd h (lt_irrefl 0)⟩

/-- The reserved count is the granted total less the committed total, modulo 2^32, after
every sequence of steps. -/
theorem runRing_accounts (ctl : RingBufferControl κ) (read : σ → Ptr → Nat → Int × σ)
    (hsrc : ∀ t to_ len, (read t to_ len).1 ≤ (len : Int)) (ops : List RingOp) :
    ∀ (rb : RecvRingBuffer (κ × Meter)) (s : σ), rb.m_write < ctl.m_size →
      rb.m_control.2.committed ≤ rb.m_control.2.granted →
      rb.m_reserved = (rb.m_control.2.granted - rb.m_control.2.committed) % U32 →
      ∃ out, runRing ctl.metered read ops rb s = some out
        ∧ out.1.m_control.2.committed ≤ out.1.m_control.2.granted
        ∧ out.1.m_reserved
            = (out.1.m_control.2.granted - out.1.m_control.2.committed) % U32 := by
  induction ops with
  | nil =>
    intro rb s _ hle hres
    exact ⟨_, rfl, hle, hres⟩
  | cons op ops ih =>
    intro rb s hw hle hres
    cases op with
    | recv =>
      obtain ⟨out, n, hrecv, hn, hw1, hr1, hm1, _, _⟩ := recv_metered ctl read rb s hw hsrc
      obtain ⟨ha, hb⟩ := account_step _ _ _ _ n hle hres hn
      have hle1 : out.2.1.m_control.2.committed ≤ out.2.1.m_control.2.granted := by
        rw [hm1]
        exact ha
      have hres1 : out.2.1.m_reserved
          = (out.2.1.m_control.2.granted - out.2.1.m_control.2.committed) % U32 := by
        rw [hr1, hm1]
        exact hb
      obtain ⟨fin, hrun, h1, h2⟩ := ih out.2.1 out.2.2 hw1 hle1 hres1
      refine ⟨fin, ?_, h1, h2⟩
      rw [runRing, hrecv]
      exact hrun
    | consume m =>
      obtain ⟨fin, hrun, h1, h2⟩ := ih
        { rb with m_control := (ctl.metered.consume rb.m_control m).2 } s hw hle hres
      exact ⟨fin, hrun, h1, h2⟩

/-- Under the contract of the control record the reserved count is exactly the granted
total less the committed total. -/
theorem runRing_accounts_exact (ctl : RingBufferControl κ)
    (read : σ → Ptr → Nat → Int × σ)
    (hsrc : ∀ t to_ len, (read t to_ len).1 ≤ (len : Int))
    (inv : κ → Prop) (outstanding : κ → Nat)
    (hlt : ∀ c, inv c → outstanding c < ctl.m_size)
    (hres : ∀ c, inv c → inv (ctl.reserve c (U32 - 1)).2
      ∧ outstanding (ctl.reserve c (U32 - 1)).2 = outstanding c + (ctl.reserve c (U32 - 1)).1)
    (hcom : ∀ c n, inv c → n ≤ outstanding c → inv (ctl.commit c n).2
      ∧ outstanding (ctl.commit c n).2 = outstanding c - n)
    (hcon : ∀ c n, inv c → inv (ctl.consume c n).2
      ∧ outstanding (ctl.consume c n).2 = outstanding c)
    (ops : List RingOp) :
    ∀ (rb : RecvRingBuffer (κ × Meter)) (s : σ), rb.m_write < ctl.m_size →
      inv rb.m_control.1 →
      rb.m_control.2.committed ≤ rb.m_control.2.granted →
      outstanding rb.m_control.1 = rb.m_control.2.granted - rb.m_control.2.committed →
      rb.m_reserved = rb.m_control.2.granted - rb.m_control.2.committed →
      ∃ out, runRing ctl.metered read ops rb s = some out
        ∧ out.1.m_reserved = out.1.m_control.2.granted - out.1.m_control.2.committed := by
  induction ops with
  | nil =>
    intro rb s _ _ _ _ hr
    exact ⟨_, rfl, hr⟩
  | cons op ops ih =>
    intro rb s hw hinv hle hout hr
    have hU := ctl.m_size_lt
    cases op with
    | recv =>
      obtain ⟨out, n, hrecv, hn, hw1, hr1, hm1, hc0, hcpos⟩ :=
        recv_metered ctl read rb s hw hsrc
      obtain ⟨hinv1, hout1⟩ := hres rb.m_control.1 hinv
      have hlt1 := hlt _ hinv1
      have hsum : addU32 rb.m_reserved (ctl.reserve rb.m_control.1 (U32 - 1)).1
          = rb.m_reserved + (ctl.reserve rb.m_control.1 (U32 - 1)).1 :=
        addU32_of_lt (by omega)
      rw [hsum] at hn hr1
      have hstate : inv out.2.1.m_control.1
          ∧ outstanding out.2.1.m_control.1
            = rb.m_reserved + (ctl.reserve rb.m_control.1 (U32 - 1)).1 - n := by
        rcases Nat.eq_zero_or_pos n with h0 | hpos
        · rw [hc0 h0, h0]
          exact ⟨hinv1, by omega⟩
        · rw [hcpos hpos]
          obtain ⟨hi, ho⟩ := hcom _ n hinv1 (by omega)
          exact ⟨hi, by omega⟩
      obtain ⟨fin, hrun, hfin⟩ := ih out.2.1 out.2.2 hw1 hstate.1
        (by rw [hm1]; simp only; omega)
        (by rw [hm1, hstate.2]; simp only; omega)
        (by rw [hm1, hr1]; simp only; omega)
      refine ⟨fin, ?_, hfin⟩
      rw [runRing, hrecv]
      exact hrun
    | consume m =>
      obtain ⟨hi, ho⟩ := hcon rb.m_control.1 m hinv
      obtain ⟨fin, hrun, hfin⟩ := ih
        { rb with m_control := (ctl.metered.consume rb.m_control m).2 } s hw hi hle
        (ho.trans hout) hr
      exact ⟨fin, hrun, hfin⟩

/-- Metering does not change what `recv` does. -/
theorem recv_metered_erase (ctl : RingBufferControl κ) (read : σ → Ptr → Nat → Int × σ)
    (rb : RecvRingBuffer (κ × Meter)) (s : σ) :
    (rb.recv ctl.metered read s).map (fun o => (o.1, o.2.1.unmeter, o.2.2))
      = rb.unmeter.recv ctl read s := by
  unfold RecvRingBuffer.recv
  simp only [RingBufferControl.metered, RecvRingBuffer.unmeter]
  split_ifs <;> rfl

/-- Metering does not change what a sequence of steps does. -/
theorem runRing_metered_erase (ctl : RingBufferControl κ) (read : σ → Ptr → Nat → Int × σ)
    (ops : List RingOp) :
    ∀ (rb : RecvRingBuffer (κ × Meter)) (s : σ),
      (runRing ctl.metered read ops rb s).map (fun o => (o.1.unmeter, o.2))
        = runRing ctl read ops rb.unmeter s := by
  induction ops with
  | nil => intro rb s; rfl
  | cons op ops ih =>
    intro rb s
    cases op with
    | recv =>
      have h := recv_metered_erase ctl read rb s
      rw [runRing, runRing]
      cases hm : rb.recv ctl.metered read s with
      | none =>
        rw [hm] at h
        rw [← h]
        rfl
      | some out =>
        rw [hm] at h
        rw [← h]
        exact ih out.2.1 out.2.2
    | consume m =>
      exact ih _ s

theorem scripted_le (rs : List Int) (to_ : Ptr) (len : Nat) :
    (scripted rs to_ len).1 ≤ (len : Int) := by
  cases rs with
  | nil => exact Int.ofNat_nonneg len
  | cons r rs => exact min_le_right _ _

/-- C17: reservation accounting invariant. Take a freshly constructed RecvRingBuffer,
a source that never returns more than the requested length, and any sequence of recv
calls, with consume calls of the consumer on the shared control record in between. With
the totals read off a metered control record, which changes nothing else: every recv is
defined, the bytes passed
to commit never exceed the bytes granted by reserve, and the local reserved count equals
the granted total less the committed total as a uint32_t, that is modulo 2^32, hence
exactly whenever that difference is below 2^32, which it is for every control record
that meets its contract. In particular a recv whose read returns zero or a negative
value keeps the bytes granted in that call in the local reserved count. -/
theorem C17_reservation_accounting (ctl : RingBufferControl κ)
    (read : σ → Ptr → Nat → Int × σ) (c0 : κ) (buffer : Ptr) (s : σ) (ops : List RingOp)
    (hcur : ctl.m_current c0 < ctl.m_size)
    (hsrc : ∀ t to_ len, (read t to_ len).1 ≤ (len : Int)) :
    (∃ out, runRing ctl.metered read ops
          (RecvRingBuffer.new ctl.metered (c0, ⟨0, 0⟩) buffer) s = some out
        ∧ out.1.m_control.2.committed ≤ out.1.m_control.2.granted
        ∧ out.1.m_reserved
            = (out.1.m_control.2.granted - out.1.m_control.2.committed) % U32
        ∧ (out.1.m_control.2.granted - out.1.m_control.2.committed < U32 →
            out.1.m_reserved = out.1.m_control.2.granted - out.1.m_control.2.committed)
        ∧ (KeepsOneFree ctl c0 →
            out.1.m_reserved = out.1.m_control.2.granted - out.1.m_control.2.committed))
      ∧ (runRing ctl.metered read ops
            (RecvRingBuffer.new ctl.metered (c0, ⟨0, 0⟩) buffer) s).map
            (fun o => (o.1.unmeter, o.2))
          = runRing ctl read ops (RecvRingBuffer.new ctl c0 buffer) s
      ∧ ∀ (rb : RecvRingBuffer κ) (t : σ), 0 < ctl.m_size →
          (read t (rb.m_buffer + rb.m_write) (rb.wrap ctl)).1 ≤ 0 →
          (rb.recv ctl read t).map (fun o => o.2.1.m_reserved)
            = some (addU32 rb.m_reserved (ctl.reserve rb.m_control (U32 - 1)).1) := by
  refine ⟨?_, runRing_metered_erase ctl read ops _ s, ?_⟩
  · obtain ⟨out, hrun, hle, hmod⟩ := runRing_accounts ctl read hsrc ops
      (RecvRingBuffer.new ctl.metered (c0, ⟨0, 0⟩) buffer) s hcur (le_refl _) rfl
    refine ⟨out, hrun, hle, hmod, ?_, ?_⟩
    · intro hsmall
      rw [hmod, Nat.mod_eq_of_lt hsmall]
    · rintro ⟨inv, outstanding, hinv0, hout0, hlt, hres, hcom, hcon⟩
      obtain ⟨out2, hrun2, hexact⟩ := runRing_accounts_exact ctl read hsrc inv outstanding
        hlt hres hcom hcon ops (RecvRingBuffer.new ctl.metered (c0, ⟨0, 0⟩) buffer) s hcur
        hinv0 (le_refl _) hout0 rfl
      rw [hrun] at hrun2
      cases hrun2
      exact hexact
  · intro rb t hC hb
    rw [recv_of_nonpos ctl read rb t hC hb]
    rfl

/-- Witness for C17: capacity 8, all cursors at 6, a source scripted to answer 3, -1, 9,
2. After two recv calls 7 bytes are granted, 2 committed and 5 reserved (the failed
second read loses nothing); after a consume and two more recv calls 9 are granted, 9
committed and none is reserved. -/
theorem C17_reservation_accounting_witness :
    control8.m_current cursorsAt6 < control8.m_size
      ∧ (runRing control8.metered scripted (sampleRingOps.take 2)
            (RecvRingBuffer.new control8.metered (cursorsAt6, ⟨0, 0⟩) 4096) [3, -1, 9, 2]).map
            (fun o => (o.1.m_reserved, o.1.m_control.2)) = some (5, ⟨7, 2⟩)
      ∧ (runRing control8.metered scripted sampleRingOps
            (RecvRingBuffer.new control8.metered (cursorsAt6, ⟨0, 0⟩) 4096) [3, -1, 9, 2]).map
            (fun o => (o.1.m_reserved, o.1.m_control.2)) = some (0, ⟨9, 9⟩)
      ∧ (runRing control8.metered scripted sampleRingOps
            (RecvRingBuffer.new control8.metered (cursorsAt6, ⟨0, 0⟩) 4096) [3, -1, 9, 2]).map
            (fun o => (o.1.unmeter, o.2))
          = runRing control8 scripted sampleRingOps
              (RecvRingBuffer.new control8 cursorsAt6 4096) [3, -1, 9, 2] :=
  ⟨by decide, by decide, by decide,
    (C17_reservation_accounting control8 scripted cursorsAt6 4096 [3, -1, 9, 2] sampleRingOps
      (by decide) scripted_le).2.1⟩

end Accounting

end bnet
